import Mathlib

/-!
# A verification development for the InfiScroll virtual-list engine

This file gives a shallow embedding of the InfiScroll engine (the
`ScrollElement` constructor and its helper functions) and proves properties
of the embedded definitions.

Modelling conventions:
* JavaScript numbers are modelled as rationals (`ℚ`); list indices are `ℕ`.
* The `>>> 0` operator (ToUint32) is modelled by truncation toward zero
  followed by reduction modulo 2^32, as in the ECMAScript specification.
* JS `Set`s become `Finset ℕ`, arrays used as FIFO queues become `List ℕ`,
  and JS `Map`s become association lists (`List (key × value)`) whose
  `set`/`get`/`delete` operations mirror the insertion-order semantics of
  `Map`.
* DOM elements are opaque tokens (`Elem`) carrying a measured height; DOM
  mutations, producer invocations and `setTimeout` scheduling are recorded
  as an effect list (`Eff`) returned next to the successor state.
* `throw`-ing code paths are modelled with `Except String`.
* Purely presentational DOM work (inline styles, CSS classes, spinner
  timeout chrome, `console.warn` text) is elided or reduced to an opaque
  effect; it has no influence on the engine state.
-/

/-- Truncation toward zero of a rational, as ECMAScript ToIntegerOrInfinity
does on a finite number. -/
def ratTrunc (q : ℚ) : ℤ :=
  if q < 0 then -⌊-q⌋ else ⌊q⌋

/-- ECMAScript ToUint32 (the `>>> 0` coercion): truncate toward zero, then
reduce modulo 2^32 into `[0, 2^32)`. -/
def jsToUint32 (q : ℚ) : ℕ :=
  ((ratTrunc q) % (2 ^ 32 : ℤ)).toNat

/-- `Math.ceil`, written as a negated floor. -/
def jsCeil (q : ℚ) : ℤ := -⌊-q⌋

/-- `numRange(start, N)` from the source: `Array.from(Array(N || 1), (_, i) => start + i)`.
A zero count is replaced by 1 (`N || 1`).  For a negative count `Array(N)`
throws a `RangeError` in JS; no call site reached in this development
produces a negative count, and the model returns `[]` there. -/
def numRange (start : ℕ) (N : ℤ) : List ℕ :=
  let n : ℤ := if N = 0 then 1 else N
  List.range' start n.toNat

/-- `getChildrenInView(rootTop, rootHeight, treshold, childSize)` from the
source.  `childSize` is `none` while the per-item size has not been
discovered yet; the JS falsiness test `!childSize` also fires on `0`. -/
def getChildrenInView (rootTop rootHeight treshold : ℚ) (childSize : Option ℚ) :
    List ℕ :=
  match childSize with
  | none => [0]
  | some c =>
    if c = 0 then [0]
    else
      let top := max (rootTop - treshold) 0
      let totalHeight := rootHeight + treshold * 2
      let firstChildInView := jsToUint32 (top / c)
      let firstChildExcess := (firstChildInView : ℚ) * c
      let viewLeft := totalHeight - (firstChildExcess - rootTop)
      let childrenInView := jsCeil (viewLeft / c)
      numRange firstChildInView childrenInView

/-! ## The engine state

`ScrollElement`'s mutable instance fields, the surrounding DOM children it
owns, and the external inputs it reads, embedded as one record.  Producer
invocations, DOM mounts and `setTimeout`-deferred work are modelled as
effects emitted next to the successor state. -/

/-- An opaque produced DOM element: an identity token plus the measured
`scrollHeight` used for ad-hoc child-size discovery. -/
structure Elem where
  elemId : ℕ
  height : ℚ

deriving DecidableEq, Repr, Inhabited

/-- A scalar JS value inside a batch-result array. -/
inductive JsAtom where
  | nullv : JsAtom
  | elemv : Elem → JsAtom
  | otherv : JsAtom

deriving DecidableEq, Repr, Inhabited

/-- A JS value handed to the engine by a producer callback: `null`/
`undefined`, an array (of scalar values — nested arrays do not occur in
batch production), an `HTMLElement`, or some other (invalid) value. -/
inductive JsResult where
  | nullv : JsResult
  | arrv : List JsAtom → JsResult
  | elemv : Elem → JsResult
  | otherv : JsResult

deriving DecidableEq, Repr, Inhabited

/-- View a batch-array entry as a callback argument. -/
def JsAtom.toResult : JsAtom → JsResult
  | .nullv => .nullv
  | .elemv e => .elemv e
  | .otherv => .otherv

/-- The first argument of `onListItemGenerated`: a single index or, in batch
mode, an array of indices. -/
inductive GenIndex where
  | single : ℕ → GenIndex
  | batch : List ℕ → GenIndex

deriving DecidableEq, Repr, Inhabited

/-- Externally visible actions of the engine: renderer-port calls and
`setTimeout`-scheduled continuations. -/
inductive Eff where
  /-- `addChild` attached (or in-place replaced) a produced element. -/
  | mount : ℕ → Elem → Bool → Eff
  /-- `setTimeout(this.invalidate.bind(this), 0)` (or the reload path's
  deferred invalidation). -/
  | scheduleInvalidate : Eff
  /-- the drain step's `setTimeout(() => reload(), 10)`. -/
  | scheduleReload : Eff
  /-- batch dispatch: `setTimeout(() => onGenerated(id, element, uid), 0)`. -/
  | scheduleCallback : GenIndex → JsResult → ℕ → Eff
  /-- `setTimeout(removeElements.bind(this), 0)` with the eviction list. -/
  | scheduleRemove : List ℕ → Eff
  /-- a producer (`generator`) invocation issued by `invalidate`. -/
  | produce : GenIndex → ℕ → Eff
  /-- a producer invocation issued by `updateItem`, tagged with its token. -/
  | produceUpdate : ℕ → ℕ → Eff
  /-- spinner chrome (`spinner(true)` plus its hide timeout). -/
  | spinnerPulse : Eff
  /-- the dummy stretch element was repositioned. -/
  | moveDummy : ℚ → Eff
  /-- removal of the pre-reload children marked in
  `__reloadingChildrenToRemove` (failures are caught and only warned). -/
  | removeDomChildren : List (ℕ × ℕ) → Eff
  /-- `console.warn` output. -/
  | warn : Eff
  /-- `element.scrollTop` was reassigned by `updateSize`. -/
  | setScrollTop : ℚ → Eff

deriving DecidableEq, Repr, Inhabited

deriving instance DecidableEq for Except

/-- JS `Map.get`. -/
def mapGet {κ α : Type} [BEq κ] (m : List (κ × α)) (k : κ) : Option α :=
  (m.find? (fun p => p.1 == k)).map Prod.snd

/-- JS `Map.set`: update in place preserving insertion order, else append. -/
def mapSet {κ α : Type} [BEq κ] (m : List (κ × α)) (k : κ) (v : α) :
    List (κ × α) :=
  if (m.find? (fun p => p.1 == k)).isSome then
    m.map (fun p => if p.1 == k then (k, v) else p)
  else m ++ [(k, v)]

/-- JS `Map.delete`. -/
def mapDelete {κ α : Type} [BEq κ] (m : List (κ × α)) (k : κ) : List (κ × α) :=
  m.filter (fun p => !(p.1 == k))

/-- The mutable state of one `ScrollElement` instance together with the DOM
children it owns.  DOM children are keyed by (instance identifier, index),
mirroring `getListItemId`, so elements from an older epoch do not collide
with re-mounted ones. -/
structure World where
  /-- `__domElements`: indices whose element is loaded in the DOM. -/
  domElements : Finset ℕ
  /-- `__inView`: the most recently computed visible-index set. -/
  inView : Finset ℕ
  /-- `__queue`: FIFO used to pick DOM elements to evict. -/
  queue : List ℕ
  /-- `__cacheQueue`: FIFO used to truncate the cache. -/
  cacheQueue : List ℕ
  /-- `__cache`: cached detached DOM elements by index. -/
  cache : List (ℕ × Elem)
  /-- `__queries`: indices with an unresolved producer query. -/
  queries : Finset ℕ
  /-- `__updateRequests`: latest `updateItem` token per index. -/
  updateRequests : List (ℕ × ℕ)
  /-- `__uniqueIdentifier`: the epoch; regenerated by `reload`. -/
  uniqueIdentifier : ℕ
  /-- `__reloading`. -/
  reloading : Bool
  /-- `__reloadAfterInvalidation`. -/
  reloadAfterInvalidation : Bool
  /-- `__reloadingChildrenToRemove` (DOM keys marked at reload time). -/
  reloadingChildrenToRemove : Option (List (ℕ × ℕ))
  /-- `__childSize`; `none` until discovered or configured. -/
  childSize : Option ℚ
  /-- `__treshold` (pixels). -/
  treshold : ℚ
  /-- `__tresholdFactor`. -/
  tresholdFactor : ℚ
  /-- `__size`; `none` when no list length is configured. -/
  size : Option ℚ
  /-- `__elementLimit`; `none`/`some 0` are both falsy in the source. -/
  elementLimit : Option ℕ
  /-- `__cacheSize`. -/
  cacheSize : Option ℕ
  /-- `__batchLoad`. -/
  batchLoad : Bool
  /-- `__fixedSize`. -/
  fixedSize : Bool
  /-- `__keepPositionOnReload`. -/
  keepPositionOnReload : Bool
  /-- truthiness of `__spinner`. -/
  spinner : Bool
  /-- truthiness of `__check`. -/
  checkConfigured : Bool
  /-- `__lastScrollTop` (initially `undefined`, which is falsy like 0). -/
  lastScrollTop : ℚ
  /-- `__currentScrollHeight`. -/
  currentScrollHeight : ℚ
  /-- `style.top` of the dummy stretch element, in pixels. -/
  dummyTop : ℚ
  /-- the DOM children owned by this instance, keyed by
  (`__uniqueIdentifier`, index) as in `getListItemId`. -/
  dom : List ((ℕ × ℕ) × Elem)

deriving DecidableEq, Inhabited

/-- The external inputs a pass reads from the environment: the configured
check callback's verdict, `offsetParent`-visibility, and the container's
scroll metrics. -/
structure Env where
  checkResult : Bool
  elemVisible : Bool
  scrollTop : ℚ
  clientHeight : ℚ

deriving DecidableEq, Repr, Inhabited

/-! ## Engine operations -/

/-- `positionDummyElement`: in a fixed-size list, place the dummy stretch
element at the end of the virtual list.  (With `__childSize` or `__size`
still `undefined` the JS computes a `NaN` top; the claims never exercise
that path and the model uses 0 for the missing operand.) -/
def positionDummyElement (w : World) : World × List Eff :=
  if w.fixedSize then
    let newTop := (w.childSize.getD 0) * (w.size.getD 0)
    ({w with dummyTop := newTop}, [Eff.moveDummy newTop])
  else (w, [])

/-- `stretchList(index)`: in a dynamic list, advance the dummy element below
the last generated element so scrolling can continue. -/
def stretchList (index : ℕ) (w : World) : World × List Eff :=
  if w.fixedSize ∨ w.childSize.getD 0 = 0 ∨ w.size.isNone then (w, [])
  else
    let cs := w.childSize.getD 0
    let sz := w.size.getD 0
    let childTop := (index : ℚ) * cs
    let finalElement := (index : ℚ) = sz - 1
    if finalElement then (w, [])
    else
      let currentScrollHeight := w.currentScrollHeight
      let maxScrollHeight := sz * cs
      let newDummyTop := childTop + cs * 5
      if currentScrollHeight < newDummyTop then
        let dummyTop := min maxScrollHeight newDummyTop
        ({w with dummyTop := dummyTop, currentScrollHeight := dummyTop},
          [Eff.moveDummy dummyTop])
      else (w, [])

/-- `addChild(index, elem, inPlace)`: attach the produced element (inline
styling and the last-of-list class bookkeeping are presentational and
elided), discover `__childSize` from the first element when unset, and
stretch the list. -/
def addChild (index : ℕ) (elem : Elem) (inPlace : Bool) (w : World) :
    World × List Eff :=
  let key := (w.uniqueIdentifier, index)
  let w1 := {w with dom := if inPlace then mapSet w.dom key elem
                           else w.dom ++ [(key, elem)]}
  let mountEffs := [Eff.mount index elem inPlace]
  let discovered :=
    if w1.childSize.getD 0 = 0 then
      let w2 := {w1 with childSize := some elem.height,
                         treshold := w1.tresholdFactor * elem.height}
      let posDummy := if w2.fixedSize then positionDummyElement w2 else (w2, [])
      (posDummy.1, mountEffs ++ [Eff.scheduleInvalidate] ++ posDummy.2)
    else (w1, mountEffs)
  let stretched := stretchList index discovered.1
  (stretched.1, discovered.2 ++ stretched.2)

/-- The emptiness test on a producer result:
`newElement === null || newElement === undefined ||
 (newElement.constructor === Array && newElement.length === 0)`. -/
def isEmptyResult : JsResult → Bool
  | .nullv => true
  | .arrv xs => xs.isEmpty
  | _ => false

/-- Delete a single index, or each index of a batch, from `__queries`. -/
def deleteQueries (idx : GenIndex) (q : Finset ℕ) : Finset ℕ :=
  match idx with
  | .single i => q.erase i
  | .batch is => is.foldl (fun acc i => acc.erase i) q

/-- The per-index bookkeeping of a validly resolved element (source lines
299-309): clear its pending query, drop it from the cache and the cache
queue, and add it to the loaded set. -/
def pendingResolve (i : ℕ) (w : World) : World :=
  {w with queries := w.queries.erase i,
          cache := mapDelete w.cache i,
          cacheQueue := w.cacheQueue.erase i,
          domElements := insert i w.domElements}

/-- The tail of `onListItemGenerated`: once all queries have resolved and a
reload was draining, finish the reload — remove the marked pre-reload
children and, when a deferred reload request is pending, schedule exactly
one new `reload()`. -/
def drainCheck (w : World) : World × List Eff :=
  if w.queries = ∅ then
    if w.reloading then
      let w3 := {w with reloading := false}
      let removal :=
        match w3.reloadingChildrenToRemove with
        | some ids => ({w3 with reloadingChildrenToRemove := none},
            [Eff.removeDomChildren ids])
        | none => (w3, ([] : List Eff))
      if removal.1.reloadAfterInvalidation then
        ({removal.1 with reloadAfterInvalidation := false},
          removal.2 ++ [Eff.scheduleReload])
      else removal
    else (w, [])
  else (w, [])

/-- `onListItemGenerated(index, newElement, uniqueIdentifier)`: route one
producer result back into the engine.  Order of the source's branches is
kept: null-`uniqueIdentifier` throw, empty-result cleanup, epoch check,
batch dispatch, `HTMLElement` check, state transition, drain check. -/
def onListItemGenerated (idx : GenIndex) (newElement : JsResult) (uid : ℕ)
    (w : World) : Except String (World × List Eff) :=
  if uid = 0 then .error "Null uniqueIdentifier"
  else if isEmptyResult newElement then
    .ok ({w with queries := deleteQueries idx w.queries}, [])
  else if w.uniqueIdentifier ≠ uid then
    .ok (w, [])
  else
    match idx with
    | .batch is =>
      .ok (w, (List.range is.length).map (fun i =>
        Eff.scheduleCallback (.single (is.getD i 0))
          (match newElement with
           | .arrv xs => (xs.getD i .nullv).toResult
           | _ => .nullv) uid))
    | .single i =>
      match newElement with
      | .elemv e =>
        let added := addChild i e false (pendingResolve i w)
        let drained := drainCheck added.1
        .ok (drained.1, added.2 ++ drained.2)
      | _ => .error "query callback resolved with non-HTMLElement result"

/-- `ScrollElement.prototype.reload`: coalesce while a reload is draining,
otherwise mark the pre-reload children, clear all per-index state, pick a
new epoch (`newUid`, random in the source) and schedule an invalidation. -/
def reload (newUid : ℕ) (w : World) : World × List Eff :=
  if w.reloading then ({w with reloadAfterInvalidation := true}, [])
  else
    let childrenToRemove := w.dom.map Prod.fst
    let w1 := {w with reloading := true,
                      reloadingChildrenToRemove := some childrenToRemove,
                      domElements := ∅, inView := ∅, cache := [],
                      queries := ∅, updateRequests := [],
                      queue := [], cacheQueue := []}
    let w2 := if !w1.keepPositionOnReload
              then {w1 with currentScrollHeight := 0} else w1
    ({w2 with uniqueIdentifier := newUid}, [Eff.scheduleInvalidate])

/-- `removeChildren(parent, ...elements)` restricted to the engine state:
look each index up under the current instance identifier, drop the ones
that are not in the DOM, remove the rest and return them in order. -/
def removeChildren (ids : List ℕ) (w : World) : World × List (ℕ × Elem) :=
  ids.foldl (fun acc i =>
    match mapGet acc.1.dom (acc.1.uniqueIdentifier, i) with
    | none => acc
    | some e => ({acc.1 with dom := mapDelete acc.1.dom (acc.1.uniqueIdentifier, i)},
        acc.2 ++ [(i, e)])) (w, [])

/-- The cache-truncation loop:
`while (cacheSize && cacheQueue.length > cacheSize) { shift; cache.delete }`. -/
def truncateCacheLoop (cap : ℕ) : List ℕ → List (ℕ × Elem) →
    List ℕ × List (ℕ × Elem)
  | [], c => ([], c)
  | h :: t, c =>
    if cap < (h :: t).length then truncateCacheLoop cap t (mapDelete c h)
    else (h :: t, c)

/-- The deferred `removeElements` closure scheduled by `invalidate`: remove
the evicted DOM elements, push them into the cache, then truncate the cache.
(`if (this.__domDelete) __domDelete(removedDom)` references an undefined
free variable and would raise; `domDelete` is modelled as unset.) -/
def removeElementsStep (ids : List ℕ) (w : World) : World × List Eff :=
  let removed := removeChildren ids w
  let w1 := removed.2.foldl (fun acc p =>
    {acc with cacheQueue := acc.cacheQueue ++ [p.1],
              cache := mapSet acc.cache p.1 p.2,
              domElements := acc.domElements.erase p.1}) removed.1
  match w1.cacheSize with
  | none => (w1, [])
  | some cap =>
    if cap = 0 then (w1, [])
    else
      let truncated := truncateCacheLoop cap w1.cacheQueue w1.cache
      ({w1 with cacheQueue := truncated.1, cache := truncated.2}, [])

/-- The entry guards of `invalidate`: run when forced, when a configured
check approves, or (with no check) when the element is visible. -/
def invGuard (force : Bool) (env : Env) (w : World) : Bool :=
  force || (if w.checkConfigured then env.checkResult else env.elemVisible)

/-- The scroll offset a pass uses: `element.scrollTop`, or the recorded
`__lastScrollTop` when the element reads 0 while not visible. -/
def invScrollTop (env : Env) (w : World) : ℚ :=
  if env.scrollTop = 0 ∧ env.elemVisible = false ∧ w.lastScrollTop ≠ 0 then
    w.lastScrollTop
  else env.scrollTop

/-- The visible indices a pass computes. -/
def invElementsInView (env : Env) (w : World) : List ℕ :=
  getChildrenInView (invScrollTop env w) env.clientHeight w.treshold w.childSize

/-- The `difference` list of a pass: visible indices not yet loaded,
restricted to the configured size when one is set. -/
def invDifference (env : Env) (w : World) : List ℕ :=
  ((invElementsInView env w).filter (fun e => decide (e ∉ w.domElements))).filter
    (fun e => match w.size with
              | some q => decide ((e : ℚ) < q)
              | none => true)

/-- The DOM-eviction loop of `invalidate`:
`while (queue.length > elementLimit && i++ < queue.length)` shifting the
oldest index and skipping it when visible or pending. -/
def evictLoop (limit : ℕ) (inView queries : Finset ℕ) :
    ℕ → List ℕ → List ℕ → List ℕ × List ℕ
  | _, [], acc => ([], acc)
  | i, c :: rest, acc =>
    if limit < (c :: rest).length ∧ i < (c :: rest).length then
      if c ∈ inView ∨ c ∈ queries then
        evictLoop limit inView queries (i + 1) rest acc
      else evictLoop limit inView queries (i + 1) rest (acc ++ [c])
    else (c :: rest, acc)

/-- The accumulator of the generation loop of `invalidate`. -/
structure PassAcc where
  w : World
  effs : List Eff
  childrenToLoad : List ℕ
  lastChild : Option ℕ

deriving DecidableEq, Inhabited

/-- `childToQuery >= this.__size` (skipped when no numeric size is set). -/
def sizeBlocks (size : Option ℚ) (child : ℕ) : Bool :=
  match size with
  | some q => decide (q ≤ (child : ℚ))
  | none => false

/-- One iteration of the generation loop of `invalidate`: skip out-of-size
indices, pulse the spinner, push onto the eviction queue, satisfy from the
cache synchronously via `onListItemGenerated`, or mark pending and collect
for production. -/
def prodStep (uid : ℕ) (acc : PassAcc) (child : ℕ) : Except String PassAcc :=
  if sizeBlocks acc.w.size child then .ok acc
  else
    let spinEffs := if acc.w.spinner then [Eff.spinnerPulse] else []
    if child ∈ acc.w.queries then
      .ok {acc with effs := acc.effs ++ spinEffs, lastChild := some child}
    else
      let w1 := {acc.w with queue := acc.w.queue ++ [child]}
      match mapGet w1.cache child with
      | some e =>
        match onListItemGenerated (.single child) (.elemv e) uid w1 with
        | .error s => .error s
        | .ok res =>
          .ok {w := res.1, effs := acc.effs ++ spinEffs ++ res.2,
               childrenToLoad := acc.childrenToLoad, lastChild := some child}
      | none =>
        .ok {w := {w1 with queries := insert child w1.queries},
             effs := acc.effs ++ spinEffs,
             childrenToLoad := acc.childrenToLoad ++ [child],
             lastChild := some child}

/-- The DOM-eviction phase of `invalidate`: when an element limit is
configured (non-zero), run the eviction loop over the mounted queue and
schedule the collected indices for deferred removal. -/
def invalidateEvict (w1 : World) : World × List Eff :=
  match w1.elementLimit with
  | none => (w1, ([] : List Eff))
  | some limit =>
    if limit = 0 then (w1, [])
    else
      let looped := evictLoop limit w1.inView w1.queries 0 w1.queue []
      ({w1 with queue := looped.1},
        if looped.2.isEmpty then [] else [Eff.scheduleRemove looped.2])

/-- The tail of `invalidate` after the generation loop: stretch the list
below the last processed child (skipped for index 0, which is falsy in JS)
and issue the producer calls for the collected indices, batched or one by
one. -/
def invalidateFinish (uid : ℕ) (acc : PassAcc) : World × List Eff :=
  let stretched :=
    match acc.lastChild with
    | some lastChild =>
      if lastChild = 0 then (acc.w, ([] : List Eff))
      else stretchList lastChild acc.w
    | none => (acc.w, [])
  if acc.childrenToLoad.isEmpty then
    (stretched.1, acc.effs ++ stretched.2)
  else
    let prodEffs :=
      if stretched.1.batchLoad then [Eff.produce (.batch acc.childrenToLoad) uid]
      else acc.childrenToLoad.map (fun c => Eff.produce (.single c) uid)
    (stretched.1, acc.effs ++ (stretched.2 ++ prodEffs))

/-- `ScrollElement.prototype.invalidate(force)`: guard, read the viewport,
compute the visible window, evict over-limit DOM elements (deferred), run
the generation loop, stretch the list, and issue producer calls for the
collected indices (batched or one by one). -/
def invalidate (force : Bool) (env : Env) (w : World) :
    Except String (World × List Eff) :=
  if invGuard force env w = false then .ok (w, [])
  else
    let scrollTop := invScrollTop env w
    let elementsInView := invElementsInView env w
    let difference := invDifference env w
    let w1 := {w with lastScrollTop := scrollTop,
                      inView := elementsInView.toFinset}
    let evicted := invalidateEvict w1
    let uid := evicted.1.uniqueIdentifier
    match difference.foldlM (prodStep uid)
        ({w := evicted.1, effs := [], childrenToLoad := [],
          lastChild := none} : PassAcc) with
    | .error s => .error s
    | .ok acc =>
      let finished := invalidateFinish uid acc
      .ok (finished.1, evicted.2 ++ finished.2)

/-- `ScrollElement.prototype.updateItem(index, ...data)`: re-request
production for a mounted index, tagging the request with a fresh token
(`rnd`, random in the source). -/
def updateItem (index : ℕ) (rnd : ℕ) (w : World) : World × List Eff :=
  if index ∉ w.domElements then (w, [])
  else
    ({w with updateRequests := mapSet w.updateRequests index rnd},
      [Eff.produceUpdate index rnd])

/-- The callback `updateItem` hands to the producer: ignore falsy results,
unwrap arrays, drop superseded requests, and replace the element in place.
(A non-element result makes `addChild` throw in JS.) -/
def updateItemCallback (index : ℕ) (rnd : ℕ) (result : JsResult) (w : World) :
    Except String (World × List Eff) :=
  if result = .nullv then .ok (w, [])
  else
    let unwrapped :=
      match result with
      | .arrv xs => (xs.getD 0 .nullv).toResult
      | x => x
    if mapGet w.updateRequests index ≠ some rnd then .ok (w, [])
    else
      match unwrapped with
      | .elemv e => .ok (addChild index e true w)
      | _ => .error "TypeError"

/-- The body of `ScrollElement.prototype.updateSize(size)` past its guards:
store the new size, reposition the dummy element and the scroll offset,
drop elements beyond the new size, and clean ghosts when emptied. -/
def updateSizeCore (newSize : ℚ) (env : Env) (w : World) : World × List Eff :=
  let w1 := {w with size := some newSize}
  let posed := positionDummyElement w1
  let w2 := posed.1
  let newMaxScrollHeight := newSize * (w2.childSize.getD 0)
  let dummyTopPx := ((ratTrunc w2.dummyTop : ℤ) : ℚ)
  let scrollBottom := env.scrollTop + env.clientHeight
  let moved :=
    if newMaxScrollHeight < dummyTopPx then
      ({w2 with dummyTop := newMaxScrollHeight,
                currentScrollHeight := newMaxScrollHeight},
        [Eff.moveDummy newMaxScrollHeight])
    else (w2, [])
  let scrollEffs :=
    if newMaxScrollHeight < scrollBottom then
      [Eff.setScrollTop (max (newMaxScrollHeight - env.clientHeight) 0)]
    else ([] : List Eff)
  let removeList :=
    (moved.1.domElements.filter (fun i : ℕ => newSize ≤ (i : ℚ))).sort (· ≤ ·)
  let afterRemoval :=
    if removeList.isEmpty then moved.1
    else
      let w3 := (removeChildren removeList moved.1).1
      removeList.foldl (fun acc i =>
        {acc with domElements := acc.domElements.erase i,
                  cache := mapDelete acc.cache i,
                  queue := acc.queue.erase i,
                  cacheQueue := acc.cacheQueue.erase i}) w3
  let ghosted :=
    if newSize = 0 then
      ({afterRemoval with dom := []},
        if afterRemoval.dom.isEmpty then ([] : List Eff) else [Eff.warn])
    else (afterRemoval, [])
  (ghosted.1, posed.2 ++ moved.2 ++ scrollEffs ++ ghosted.2)

/-- `ScrollElement.prototype.updateSize(size)`: validate the argument
(`typeof size !== "number" || size < 0` throws), skip when unchanged, run
the resize, and re-invalidate when the list was previously empty.  (`NaN`
passes the JS validation; the model's argument is a number or a
non-number, so `NaN` is out of scope.) -/
def updateSize (sizeArg : Option ℚ) (env : Env) (w : World) :
    Except String (World × List Eff) :=
  match sizeArg with
  | none => .error "Invalid size"
  | some sz =>
    if sz < 0 then .error "Invalid size"
    else if w.size = some sz then .ok (w, [])
    else
      let core := updateSizeCore sz env w
      if w.size = some 0 then
        match invalidate false env core.1 with
        | .error s => .error s
        | .ok res => .ok (res.1, core.2 ++ res.2)
      else .ok core

/-! ## Base states for concrete runs -/

/-- A freshly constructed instance with no option configured: empty
per-index state, epoch 2, no caps, no sizes. -/
def baseWorld : World where
  domElements := ∅
  inView := ∅
  queue := []
  cacheQueue := []
  cache := []
  queries := ∅
  updateRequests := []
  uniqueIdentifier := 2
  reloading := false
  reloadAfterInvalidation := false
  reloadingChildrenToRemove := none
  childSize := none
  treshold := 0
  tresholdFactor := 0
  size := none
  elementLimit := none
  cacheSize := none
  batchLoad := false
  fixedSize := false
  keepPositionOnReload := false
  spinner := false
  checkConfigured := false
  lastScrollTop := 0
  currentScrollHeight := 0
  dummyTop := 0
  dom := []

/-! ## C2: stale producer callbacks -/

/-- A state with one pending query under epoch 2; the callback below
carries the stale epoch 1. -/
def staleWorld : World := {baseWorld with queries := {0}}

/-! ## Effect classification -/

/-- Is the effect a producer invocation from `invalidate`? -/
def Eff.isProduce : Eff → Bool
  | .produce _ _ => true
  | _ => false

/-- Is the effect a deferred eviction (`removeElements`) task? -/
def Eff.isScheduleRemove : Eff → Bool
  | .scheduleRemove _ => true
  | _ => false

/-- Is the effect a deferred `reload()`? -/
def Eff.isScheduleReload : Eff → Bool
  | .scheduleReload => true
  | _ => false

/-- A state in which a reload is still draining. -/
def wReloading : World := {baseWorld with reloading := true}

/-- A draining state with one outstanding request (index 0) under epoch 7
and a deferred reload request already recorded. -/
def wDrain : World := {baseWorld with uniqueIdentifier := 7, reloading := true,
                                      reloadAfterInvalidation := true,
                                      queries := {0}}

/-- The state and effects after `wDrain`'s last outstanding request
resolves. -/
def drainOut : World × List Eff :=
  (onListItemGenerated (.single 0) (.elemv ⟨0, 0⟩) 7 wDrain).toOption.getD default

/-- The cached elements of the C6 scenario. -/
def e5 : Elem := ⟨5, 0⟩

def e6 : Elem := ⟨6, 0⟩

def e7 : Elem := ⟨7, 0⟩

/-- The C6 scenario state: `cachedCap = 1`, cache queue `[5, 6]` in that
insertion order, and index `7` mounted and about to be cached. -/
def w6 : World := {baseWorld with cacheQueue := [5, 6],
                                  cache := [(5, e5), (6, e6)],
                                  domElements := {7},
                                  cacheSize := some 1,
                                  dom := [((2, 7), e7)]}

/-- The indices of all producer invocations among a list of effects. -/
def producedIndices (effs : List Eff) : List ℕ :=
  effs.foldr (fun e acc => match e with
    | .produce (.single i) _ => i :: acc
    | .produce (.batch is) _ => is ++ acc
    | _ => acc) []

/-- The indices scheduled for deferred DOM eviction among a list of
effects. -/
def removalIndices (effs : List Eff) : List ℕ :=
  effs.foldr (fun e acc => match e with
    | .scheduleRemove ids => ids ++ acc
    | _ => acc) []

/-- The invariant the generation loop of `invalidate` maintains: the pending
set grows exactly by the collected `childrenToLoad` (no duplicates, none
already pending), and the pass's epoch, visible set and size are stable. -/
def ProdInv (w0 : World) (acc : PassAcc) : Prop :=
  acc.w.queries = w0.queries ∪ acc.childrenToLoad.toFinset ∧
  acc.childrenToLoad.Nodup ∧
  (∀ i ∈ acc.childrenToLoad, i ∉ w0.queries) ∧
  acc.w.uniqueIdentifier = w0.uniqueIdentifier ∧
  acc.w.inView = w0.inView ∧
  acc.w.size = w0.size ∧
  (∀ x ∈ acc.effs, x.isProduce = false ∧ x.isScheduleRemove = false)

/-- The environment of the concrete generation run: viewport of height 20
at scroll offset 0, visibility checks passing. -/
def env4 : Env := {checkResult := true, elemVisible := true,
                   scrollTop := 0, clientHeight := 20}

/-- A fresh list with a fixed child size of 10 and nothing loaded. -/
def w4 : World := {baseWorld with childSize := some 10, uniqueIdentifier := 1}

/-- The state after one forced `invalidate` pass on `w4`: indices 0 and 1
become pending and queued. -/
def w4' : World := {w4 with lastScrollTop := 0, inView := {0, 1},
                            queries := {1, 0}, queue := [0, 1]}

/-- The environment of the eviction scenario: viewport of height 20
scrolled to offset 20, visibility checks passing. -/
def env3 : Env := {checkResult := true, elemVisible := true,
                   scrollTop := 20, clientHeight := 20}

def e0 : Elem := ⟨100, 10⟩

def e1 : Elem := ⟨101, 10⟩

def e2 : Elem := ⟨102, 10⟩

def e3 : Elem := ⟨103, 10⟩

/-- The eviction scenario: element limit 3, indices 0..3 mounted in order,
child size 10. -/
def w3 : World := {baseWorld with
  domElements := {0, 1, 2, 3}, queue := [0, 1, 2, 3],
  childSize := some 10, elementLimit := some 3, uniqueIdentifier := 1,
  dom := [((1, 0), e0), ((1, 1), e1), ((1, 2), e2), ((1, 3), e3)]}

/-- The state after one forced `invalidate` pass on `w3`: index 0 is popped
from the mounted queue and scheduled for removal. -/
def w3' : World := {w3 with lastScrollTop := 20, inView := {2, 3},
                            queue := [1, 2, 3]}

/-- The environment of the resize runs: visible viewport of height 20 at
offset 0. -/
def env9 : Env := {checkResult := true, elemVisible := true,
                   scrollTop := 0, clientHeight := 20}

/-- A list configured with size 5 and nothing loaded. -/
def w9 : World := {baseWorld with size := some 5}

/-- Tracking invariant for a cached index `k` while the generation loop has
not reached it: the epoch and size stay fixed, `k` stays in the cache, and
`k` is neither pending nor collected for production. -/
def CacheTrack (uid : ℕ) (s0 : Option ℚ) (k : ℕ) (e : Elem)
    (acc : PassAcc) : Prop :=
  acc.w.uniqueIdentifier = uid ∧
  acc.w.size = s0 ∧
  mapGet acc.w.cache k = some e ∧
  k ∉ acc.w.queries ∧
  k ∉ acc.childrenToLoad

/-- Tracking invariant after the loop has promoted `k`: `k` is mounted, out
of the cache, and still neither pending nor collected for production. -/
def MountedTrack (uid : ℕ) (k : ℕ) (acc : PassAcc) : Prop :=
  acc.w.uniqueIdentifier = uid ∧
  k ∈ acc.w.domElements ∧
  mapGet acc.w.cache k = none ∧
  k ∉ acc.w.queries ∧
  k ∉ acc.childrenToLoad

/-- The environment of the cache-promotion run: visible viewport of height
20 at offset 0. -/
def env7 : Env := {checkResult := true, elemVisible := true,
                   scrollTop := 0, clientHeight := 20}

/-- The cached element of the promotion run. -/
def e7c : Elem := ⟨110, 10⟩

/-- A list with child size 10 whose index 0 is Cached and not mounted. -/
def w7 : World := {baseWorld with
  childSize := some 10, uniqueIdentifier := 1, cacheQueue := [0],
  cache := [(0, e7c)]}

theorem jsCeil_eq_ceil (q : ℚ) : jsCeil q = ⌈q⌉ := by
  rw [jsCeil, Int.floor_neg, neg_neg]

/-- C8: with an unknown item size the window calculator returns exactly `[0]`,
whatever the scroll offset, viewport size and padding are. -/
theorem getChildrenInView_unknown_size (rootTop rootHeight treshold : ℚ) :
    getChildrenInView rootTop rootHeight treshold none = [0] := rfl

/-- C1 (counterexample): at `scrollOffset = 0`, `viewportSize = 5`,
`padding = 10`, `itemSize = 10` the calculator returns `[0, 1, 2]`, and the
returned index `2` violates the claimed upper bound
`i*itemSize ≤ scrollOffset + viewportSize + padding` (20 > 15). -/
theorem getChildrenInView_upper_bound_fails :
    getChildrenInView 0 5 10 (some 10) = [0, 1, 2] ∧
      ¬((2 : ℚ) * 10 ≤ 0 + 5 + 10) := by
  constructor
  · norm_num [getChildrenInView, jsToUint32, ratTrunc, jsCeil, numRange]
    decide
  · norm_num

theorem getChildrenInView_known (rootTop rootHeight treshold c : ℚ) (hc : c ≠ 0) :
    getChildrenInView rootTop rootHeight treshold (some c) =
      numRange (jsToUint32 (max (rootTop - treshold) 0 / c))
        (jsCeil ((rootHeight + treshold * 2 -
          ((jsToUint32 (max (rootTop - treshold) 0 / c) : ℚ) * c - rootTop)) / c)) := by
  rw [getChildrenInView, if_neg hc]

/-- C1 (amended): for `scrollOffset ≥ 0`, `viewportSize > 0`, `itemSize > 0`,
`padding ≥ 0`, and no 32-bit wrap in the `>>> 0` coercion of the first index
(`⌊max(scrollOffset - padding, 0) / itemSize⌋ < 2^32`), the calculator returns
a non-empty contiguous ascending run `List.range' first n` of non-negative
integers, and every returned index `i` satisfies
`i*itemSize + itemSize ≥ scrollOffset - padding` and
`i*itemSize ≤ scrollOffset + viewportSize + 2*padding` (the source adds the
padding on both sides, `treshold * 2`, so the claimed single-padding upper
bound fails; see the counterexample). -/
theorem getChildrenInView_window_bounds
    (scrollOffset viewportSize padding itemSize : ℚ)
    (h0 : 0 ≤ scrollOffset) (h1 : 0 < viewportSize) (h2 : 0 < itemSize)
    (h3 : 0 ≤ padding)
    (hwrap : ⌊max (scrollOffset - padding) 0 / itemSize⌋ < 2 ^ 32) :
    ∃ first n, 0 < n ∧
      getChildrenInView scrollOffset viewportSize padding (some itemSize) =
        List.range' first n ∧
      ∀ i ∈ List.range' first n,
        scrollOffset - padding ≤ (i : ℚ) * itemSize + itemSize ∧
        (i : ℚ) * itemSize ≤ scrollOffset + viewportSize + 2 * padding := by
  set c := itemSize with hc
  set t := padding with ht
  set st := scrollOffset with hst
  set hgt := viewportSize with hhgt
  have hcne : c ≠ 0 := ne_of_gt h2
  set top := max (st - t) 0 with htop
  have htop0 : 0 ≤ top := le_max_right _ _
  have htople : top ≤ st := by
    apply max_le _ h0
    linarith
  have hdiv0 : 0 ≤ top / c := div_nonneg htop0 (le_of_lt h2)
  set J := ⌊top / c⌋ with hJ
  have hJ0 : 0 ≤ J := Int.floor_nonneg.mpr hdiv0
  have htr : ratTrunc (top / c) = J := by
    rw [ratTrunc, if_neg (not_lt.mpr hdiv0)]
  have hmod : J % (2 ^ 32 : ℤ) = J := Int.emod_eq_of_lt hJ0 hwrap
  have hF : jsToUint32 (top / c) = J.toNat := by
    rw [jsToUint32, htr, hmod]
  have hFQ : ((J.toNat : ℕ) : ℚ) = (J : ℚ) := by
    exact_mod_cast congrArg (fun z : ℤ => (z : ℚ)) (Int.toNat_of_nonneg hJ0)
  have hexcess : (J : ℚ) * c ≤ top := by
    have hfl := Int.floor_le (top / c)
    calc (J : ℚ) * c ≤ (top / c) * c :=
          mul_le_mul_of_nonneg_right hfl (le_of_lt h2)
      _ = top := div_mul_cancel₀ _ hcne
  set V := hgt + t * 2 - ((J : ℚ) * c - st) with hV
  have hVpos : 0 < V := by
    have h' : (J : ℚ) * c ≤ st := le_trans hexcess htople
    rw [hV]; nlinarith
  set N := ⌈V / c⌉ with hN
  have hN1 : 1 ≤ N := Int.ceil_pos.mpr (div_pos hVpos h2)
  have hNne : N ≠ 0 := by omega
  refine ⟨J.toNat, N.toNat, ?_, ?_, ?_⟩
  · omega
  · rw [getChildrenInView_known _ _ _ _ hcne, hF, hFQ, jsCeil_eq_ceil, ← hV, ← hN,
      numRange, if_neg hNne]
  · intro i hi
    rw [List.mem_range'_1] at hi
    obtain ⟨hlo, hhi⟩ := hi
    have hiQ1 : (J : ℚ) ≤ (i : ℚ) := by
      have h' : ((J.toNat : ℕ) : ℚ) ≤ (i : ℚ) := by exact_mod_cast hlo
      rw [hFQ] at h'; exact h'
    have hNQ : ((N.toNat : ℕ) : ℚ) = (N : ℚ) := by
      exact_mod_cast congrArg (fun z : ℤ => (z : ℚ))
        (Int.toNat_of_nonneg (by omega : (0:ℤ) ≤ N))
    have hiQ2 : (i : ℚ) + 1 ≤ (J : ℚ) + (N : ℚ) := by
      have h' : (i : ℕ) + 1 ≤ J.toNat + N.toNat := hhi
      have h'' : ((i : ℕ) : ℚ) + 1 ≤ ((J.toNat : ℕ) : ℚ) + ((N.toNat : ℕ) : ℚ) := by
        exact_mod_cast h'
      rw [hFQ, hNQ] at h''
      linarith
    constructor
    · have h4 : top < ((J : ℚ) + 1) * c := by
        have hfl := Int.lt_floor_add_one (top / c)
        calc top = (top / c) * c := (div_mul_cancel₀ _ hcne).symm
          _ < ((J : ℚ) + 1) * c := by
              apply mul_lt_mul_of_pos_right _ h2
              exact_mod_cast hfl
      have h5 : st - t ≤ top := le_max_left _ _
      nlinarith
    · have h6 : (N : ℚ) - 1 < V / c := by
        have hcl := Int.ceil_lt_add_one (V / c)
        rw [← hN] at hcl
        linarith
      have h7 : ((N : ℚ) - 1) * c < V :=
        calc ((N : ℚ) - 1) * c < (V / c) * c := mul_lt_mul_of_pos_right h6 h2
          _ = V := div_mul_cancel₀ _ hcne
      nlinarith

/-- C1 (witness for the amended bounds): the amended theorem applied at
`scrollOffset = 0`, `viewportSize = 200`, `padding = 25`, `itemSize = 50`. -/
theorem getChildrenInView_window_bounds_witness :
    ∃ first n, 0 < n ∧
      getChildrenInView 0 200 25 (some 50) = List.range' first n ∧
      ∀ i ∈ List.range' first n,
        (0 : ℚ) - 25 ≤ (i : ℚ) * 50 + 50 ∧
        (i : ℚ) * 50 ≤ 0 + 200 + 2 * 25 :=
  getChildrenInView_window_bounds 0 200 25 50 (by norm_num) (by norm_num)
    (by norm_num) (by norm_num) (by norm_num)

/-! ## C10: updateItem on an unmounted index is a no-op -/

/-- C10: for an index not in the mounted set, `updateItem` returns
immediately: no producer invocation, no effect, and the state (pending set,
mounted set, queues, cache, DOM) is unchanged. -/
theorem updateItem_not_mounted (index rnd : ℕ) (w : World)
    (h : index ∉ w.domElements) : updateItem index rnd w = (w, []) := by
  simp [updateItem, h]

/-- C10 (witness): `updateItem 5` on the base state, whose mounted set is
empty. -/
theorem updateItem_not_mounted_witness :
    5 ∉ baseWorld.domElements ∧ updateItem 5 7 baseWorld = (baseWorld, []) :=
  ⟨by decide, updateItem_not_mounted 5 7 baseWorld (by decide)⟩

/-- C2 (counterexample): a producer callback from the stale epoch 1 that
resolves with `null` does mutate state: the empty-result cleanup runs
before the epoch check and clears index 0 from the pending set (which a
later epoch may have re-populated). -/
theorem onListItemGenerated_stale_null_mutates :
    (onListItemGenerated (.single 0) .nullv 1 staleWorld).toOption.map
        (fun p => p.1.queries) = some ∅ ∧
      staleWorld.queries = {0} ∧ staleWorld.uniqueIdentifier ≠ 1 := by
  refine ⟨by decide, rfl, by decide⟩

/-- C2 (amended): a producer callback carrying a stale (non-current,
non-null) epoch never mounts anything, emits no effect, and leaves every
state component except possibly the pending set unchanged; with a non-empty
result even the pending set is untouched.  (A stale empty/absent result
still clears the pending mark of its index — the only mutation.) -/
theorem onListItemGenerated_stale (idx : GenIndex) (res : JsResult) (uid : ℕ)
    (w : World) (hu : uid ≠ 0) (hstale : w.uniqueIdentifier ≠ uid) :
    ∃ q', onListItemGenerated idx res uid w =
        .ok ({w with queries := q'}, []) ∧
      (isEmptyResult res = false → q' = w.queries) := by
  by_cases he : isEmptyResult res = true
  · exact ⟨deleteQueries idx w.queries,
      by simp [onListItemGenerated, hu, he], by simp [he]⟩
  · refine ⟨w.queries, ?_, fun _ => rfl⟩
    simp only [Bool.not_eq_true] at he
    simp [onListItemGenerated, hu, he, hstale]

/-- C2 (witness for the amended statement): a stale callback with a real
element on the same state. -/
theorem onListItemGenerated_stale_witness :
    ∃ q', onListItemGenerated (.single 3) (.elemv ⟨0, 10⟩) 1 staleWorld =
        .ok ({staleWorld with queries := q'}, []) ∧
      (isEmptyResult (.elemv ⟨0, 10⟩) = false → q' = staleWorld.queries) :=
  onListItemGenerated_stale _ _ _ _ (by decide) (by decide)

theorem positionDummyElement_effs_shape (w : World) :
    ∀ x ∈ (positionDummyElement w).2, x.isProduce = false ∧
      x.isScheduleRemove = false ∧ x.isScheduleReload = false := by
  intro x hx
  rw [positionDummyElement] at hx
  split at hx
  · simp at hx; subst hx; exact ⟨rfl, rfl, rfl⟩
  · simp at hx

theorem stretchList_effs_shape (index : ℕ) (w : World) :
    ∀ x ∈ (stretchList index w).2, x.isProduce = false ∧
      x.isScheduleRemove = false ∧ x.isScheduleReload = false := by
  intro x hx
  rw [stretchList] at hx
  split at hx
  · simp at hx
  · dsimp only at hx
    split at hx
    · simp at hx
    · split at hx
      · simp at hx; subst hx; exact ⟨rfl, rfl, rfl⟩
      · simp at hx

theorem addChild_effs_shape (index : ℕ) (e : Elem) (ip : Bool) (w : World) :
    ∀ x ∈ (addChild index e ip w).2, x.isProduce = false ∧
      x.isScheduleRemove = false ∧ x.isScheduleReload = false := by
  intro x hx
  rw [addChild] at hx
  dsimp only at hx
  rw [List.mem_append] at hx
  rcases hx with hx | hx
  rotate_left
  · exact stretchList_effs_shape _ _ x hx
  · revert hx
    split
    · intro hx
      dsimp only at hx
      simp only [List.append_assoc, List.mem_append, List.mem_singleton] at hx
      rcases hx with hx | hx | hx
      · subst hx; exact ⟨rfl, rfl, rfl⟩
      · subst hx; exact ⟨rfl, rfl, rfl⟩
      · revert hx
        split
        · intro hx; exact positionDummyElement_effs_shape _ x hx
        · intro hx; simp at hx
    · intro hx
      simp at hx; subst hx; exact ⟨rfl, rfl, rfl⟩

theorem drainCheck_reload_count (w : World) :
    (drainCheck w).2.countP Eff.isScheduleReload ≤ 1 ∧
      (Eff.scheduleReload ∈ (drainCheck w).2 →
        (drainCheck w).1.reloadAfterInvalidation = false) := by
  rw [drainCheck]
  split
  · split
    · dsimp only
      split
      · split
        · exact ⟨by simp [Eff.isScheduleReload], fun _ => rfl⟩
        · exact ⟨by simp [Eff.isScheduleReload], fun _ => rfl⟩
      · split
        · refine ⟨by simp [Eff.isScheduleReload], fun hmem => ?_⟩
          simp at hmem
        · refine ⟨by simp, fun hmem => ?_⟩
          simp at hmem
    · exact ⟨by simp, by simp⟩
  · exact ⟨by simp, by simp⟩

theorem onGen_single_elem_eq (i : ℕ) (e : Elem) (uid : ℕ) (w : World)
    (hu : uid ≠ 0) (hcur : w.uniqueIdentifier = uid) :
    onListItemGenerated (.single i) (.elemv e) uid w =
      .ok ((drainCheck (addChild i e false (pendingResolve i w)).1).1,
        (addChild i e false (pendingResolve i w)).2 ++
          (drainCheck (addChild i e false (pendingResolve i w)).1).2) := by
  rw [onListItemGenerated.eq_def]
  rw [if_neg hu, if_neg (by simp [isEmptyResult]), if_neg (by simp [hcur])]

theorem onListItemGenerated_reload_count
    (idx : GenIndex) (res : JsResult) (uid : ℕ) (w w' : World)
    (effs : List Eff)
    (h : onListItemGenerated idx res uid w = .ok (w', effs)) :
    effs.countP Eff.isScheduleReload ≤ 1 ∧
      (Eff.scheduleReload ∈ effs → w'.reloadAfterInvalidation = false) := by
  rw [onListItemGenerated.eq_def] at h
  split_ifs at h with h1 h2 h3
  · -- empty result: no effect
    rw [Except.ok.injEq, Prod.mk.injEq] at h
    obtain ⟨-, heff⟩ := h
    subst heff
    exact ⟨by simp, by simp⟩
  · -- stale epoch: no effect
    rw [Except.ok.injEq, Prod.mk.injEq] at h
    obtain ⟨-, heff⟩ := h
    subst heff
    exact ⟨by simp, by simp⟩
  · cases idx with
    | batch is =>
      dsimp only at h
      rw [Except.ok.injEq, Prod.mk.injEq] at h
      obtain ⟨-, heff⟩ := h
      have hall : ∀ x ∈ effs, x.isScheduleReload = false := by
        intro x hx
        rw [← heff] at hx
        simp only [List.mem_map] at hx
        obtain ⟨j, -, hxj⟩ := hx
        subst hxj
        rfl
      constructor
      · rw [List.countP_eq_zero.mpr (fun a ha => by simp [hall a ha])]
        omega
      · intro hmem
        have hfalse := hall _ hmem
        simp [Eff.isScheduleReload] at hfalse
    | single i =>
      cases res with
      | nullv => exact absurd rfl h2
      | arrv xs =>
        dsimp only at h
        exact absurd h (by simp)
      | otherv =>
        dsimp only at h
        exact absurd h (by simp)
      | elemv e =>
        dsimp only at h
        generalize hA : addChild i e false (pendingResolve i w) = A at h
        rw [Except.ok.injEq, Prod.mk.injEq] at h
        obtain ⟨hw, heff⟩ := h
        subst hw heff
        rw [List.countP_append]
        have hadd : A.2.countP Eff.isScheduleReload = 0 := by
          rw [← hA]
          exact List.countP_eq_zero.mpr (fun x hx => by
            have hs := addChild_effs_shape _ _ _ _ x hx
            simpa using hs.2.2)
        have hd := drainCheck_reload_count A.1
        rw [hadd]
        refine ⟨by omega, fun hmem => ?_⟩
        rcases List.mem_append.mp hmem with hmem | hmem
        · rw [← hA] at hmem
          have hs := addChild_effs_shape _ _ _ _ _ hmem
          simp [Eff.isScheduleReload] at hs
        · exact hd.2 hmem

/-- C5: a `reload()` issued while a reload is in progress only sets the
deferred-reload flag (so any number of such calls collapse into one flag),
and a resolving producer callback — in particular the one that drains the
last outstanding request — schedules at most one deferred `reload()`,
clearing the flag when it does. -/
theorem reload_coalesces (nu nu' : ℕ) (w : World) (h : w.reloading = true) :
    reload nu w = ({w with reloadAfterInvalidation := true}, []) ∧
    reload nu' (reload nu w).1 = ({w with reloadAfterInvalidation := true}, []) ∧
    ∀ idx res uid (w2 w2' : World) effs,
      onListItemGenerated idx res uid w2 = .ok (w2', effs) →
      effs.countP Eff.isScheduleReload ≤ 1 ∧
        (Eff.scheduleReload ∈ effs → w2'.reloadAfterInvalidation = false) := by
  have h1 : reload nu w = ({w with reloadAfterInvalidation := true}, []) := by
    rw [reload, if_pos h]
  refine ⟨h1, ?_, fun idx res uid w2 w2' effs hh =>
    onListItemGenerated_reload_count idx res uid w2 w2' effs hh⟩
  rw [h1, reload,
    if_pos (show ({w with reloadAfterInvalidation := true} : World).reloading = true from h)]

/-- C5 (witness): two rapid `reload()` calls on a draining state both
collapse into the deferred flag, and the drain of `wDrain`'s single
outstanding request schedules exactly one extra reload and clears the
flag. -/
theorem reload_coalesces_witness :
    reload 1 wReloading = ({wReloading with reloadAfterInvalidation := true}, []) ∧
    reload 2 (reload 1 wReloading).1 =
      ({wReloading with reloadAfterInvalidation := true}, []) ∧
    drainOut.2.countP Eff.isScheduleReload ≤ 1 ∧
    drainOut.1.reloadAfterInvalidation = false := by
  obtain ⟨ha, hb, hc⟩ := reload_coalesces 1 2 wReloading rfl
  refine ⟨ha, hb, ?_, ?_⟩
  · exact (hc (.single 0) (.elemv ⟨0, 0⟩) 7 wDrain drainOut.1 drainOut.2 rfl).1
  · exact (hc (.single 0) (.elemv ⟨0, 0⟩) 7 wDrain drainOut.1 drainOut.2 rfl).2
      (by decide)

theorem truncateCacheLoop_queue (cap : ℕ) (q : List ℕ) (c : List (ℕ × Elem)) :
    (truncateCacheLoop cap q c).1 = q.drop (q.length - cap) := by
  induction q generalizing c with
  | nil => simp [truncateCacheLoop]
  | cons h t ih =>
    rw [truncateCacheLoop]
    split
    · rename_i hlt
      rw [ih]
      have hlen : (h :: t).length - cap = (t.length - cap) + 1 := by
        simp only [List.length_cons] at hlt ⊢
        omega
      rw [hlen, List.drop_succ_cons]
    · rename_i hle
      have hlen : (h :: t).length - cap = 0 := by
        simp only [List.length_cons, not_lt] at hle ⊢
        omega
      rw [hlen, List.drop_zero]

theorem truncateCacheLoop_cache (cap : ℕ) (q : List ℕ) (c : List (ℕ × Elem)) :
    (truncateCacheLoop cap q c).2 =
      (q.take (q.length - cap)).foldl mapDelete c := by
  induction q generalizing c with
  | nil => simp [truncateCacheLoop]
  | cons h t ih =>
    rw [truncateCacheLoop]
    split
    · rename_i hlt
      rw [ih]
      have hlen : (h :: t).length - cap = (t.length - cap) + 1 := by
        simp only [List.length_cons] at hlt ⊢
        omega
      rw [hlen, List.take_succ_cons, List.foldl_cons]
    · rename_i hle
      have hlen : (h :: t).length - cap = 0 := by
        simp only [List.length_cons, not_lt] at hle ⊢
        omega
      rw [hlen, List.take_zero, List.foldl_nil]

theorem cachePushFold_cacheQueue (l : List (ℕ × Elem)) (w : World) :
    (l.foldl (fun acc p =>
      {acc with cacheQueue := acc.cacheQueue ++ [p.1],
                cache := mapSet acc.cache p.1 p.2,
                domElements := acc.domElements.erase p.1}) w).cacheQueue =
      w.cacheQueue ++ l.map Prod.fst := by
  induction l generalizing w with
  | nil => simp
  | cons h t ih =>
    rw [List.foldl_cons, ih]
    simp

theorem cachePushFold_cacheSize (l : List (ℕ × Elem)) (w : World) :
    (l.foldl (fun acc p =>
      {acc with cacheQueue := acc.cacheQueue ++ [p.1],
                cache := mapSet acc.cache p.1 p.2,
                domElements := acc.domElements.erase p.1}) w).cacheSize =
      w.cacheSize := by
  induction l generalizing w with
  | nil => rfl
  | cons h t ih => rw [List.foldl_cons, ih]

theorem removeChildren_cacheQueue (ids : List ℕ) (w : World) :
    (removeChildren ids w).1.cacheQueue = w.cacheQueue ∧
    (removeChildren ids w).1.cacheSize = w.cacheSize ∧
    (removeChildren ids w).1.cache = w.cache := by
  rw [removeChildren]
  suffices hgen : ∀ (acc : World × List (ℕ × Elem)),
      (ids.foldl (fun acc i =>
        match mapGet acc.1.dom (acc.1.uniqueIdentifier, i) with
        | none => acc
        | some e => ({acc.1 with dom := mapDelete acc.1.dom (acc.1.uniqueIdentifier, i)},
            acc.2 ++ [(i, e)])) acc).1.cacheQueue = acc.1.cacheQueue ∧
      (ids.foldl (fun acc i =>
        match mapGet acc.1.dom (acc.1.uniqueIdentifier, i) with
        | none => acc
        | some e => ({acc.1 with dom := mapDelete acc.1.dom (acc.1.uniqueIdentifier, i)},
            acc.2 ++ [(i, e)])) acc).1.cacheSize = acc.1.cacheSize ∧
      (ids.foldl (fun acc i =>
        match mapGet acc.1.dom (acc.1.uniqueIdentifier, i) with
        | none => acc
        | some e => ({acc.1 with dom := mapDelete acc.1.dom (acc.1.uniqueIdentifier, i)},
            acc.2 ++ [(i, e)])) acc).1.cache = acc.1.cache by
    exact hgen (w, [])
  induction ids with
  | nil => intro acc; exact ⟨rfl, rfl, rfl⟩
  | cons hd t ih =>
    intro acc
    rw [List.foldl_cons]
    cases hmg : mapGet acc.1.dom (acc.1.uniqueIdentifier, hd) with
    | none => exact ⟨(ih _).1.trans rfl, (ih _).2.1.trans rfl, (ih _).2.2.trans rfl⟩
    | some e => exact ⟨(ih _).1.trans rfl, (ih _).2.1.trans rfl, (ih _).2.2.trans rfl⟩

theorem cachePushFold_cache (l : List (ℕ × Elem)) (w : World) :
    (l.foldl (fun acc p =>
      {acc with cacheQueue := acc.cacheQueue ++ [p.1],
                cache := mapSet acc.cache p.1 p.2,
                domElements := acc.domElements.erase p.1}) w).cache =
      l.foldl (fun c p => mapSet c p.1 p.2) w.cache := by
  induction l generalizing w with
  | nil => rfl
  | cons h t ih => rw [List.foldl_cons, ih, List.foldl_cons]

/-- C6 (amended): whenever the cache cap is configured (non-zero), after a
deferred `removeElements` run the cache queue equals the pushed queue with
everything beyond the cap dropped from the head (so its length is at most
the cap), and each dropped index's cached representation is deleted from
the cache map.  The claim's scenario is wrong about the final queue: with
`cachedCap = 1` and queue `[5, 6]`, caching `7` leaves `[7]`, not `[6, 7]`
(both `5` and `6` are forgotten). -/
theorem truncateCache_forgets (ids : List ℕ) (w : World) (cap : ℕ)
    (hcap : w.cacheSize = some cap) (hne : cap ≠ 0) :
    (removeElementsStep ids w).1.cacheQueue =
      (w.cacheQueue ++ (removeChildren ids w).2.map Prod.fst).drop
        ((w.cacheQueue ++ (removeChildren ids w).2.map Prod.fst).length - cap) ∧
    (removeElementsStep ids w).1.cacheQueue.length ≤ cap ∧
    (removeElementsStep ids w).1.cache =
      ((w.cacheQueue ++ (removeChildren ids w).2.map Prod.fst).take
        ((w.cacheQueue ++ (removeChildren ids w).2.map Prod.fst).length - cap)).foldl
        mapDelete ((removeChildren ids w).2.foldl (fun c p => mapSet c p.1 p.2) w.cache) := by
  have hrc := removeChildren_cacheQueue ids w
  have hq := cachePushFold_cacheQueue (removeChildren ids w).2 (removeChildren ids w).1
  have hs := cachePushFold_cacheSize (removeChildren ids w).2 (removeChildren ids w).1
  have hc := cachePushFold_cache (removeChildren ids w).2 (removeChildren ids w).1
  rw [removeElementsStep]
  dsimp only
  rw [hs.trans (hrc.2.1.trans hcap)]
  dsimp only
  rw [if_neg hne]
  dsimp only
  rw [truncateCacheLoop_queue, truncateCacheLoop_cache, hq, hc, hrc.1, hrc.2.2]
  refine ⟨rfl, ?_, rfl⟩
  rw [List.length_drop]
  omega

/-- C6 (counterexample): caching index `7` on the scenario state truncates
the cache queue to `[7]`, not to the claimed `[6, 7]` — the truncation loop
pops until the length is at most the cap, so it forgets both `5` and `6`. -/
theorem truncateCache_scenario_fails :
    (removeElementsStep [7] w6).1.cacheQueue = [7] ∧
      ([7] : List ℕ) ≠ [6, 7] := by decide

/-- C6 (witness): the amended truncation theorem applied to the scenario,
plus the concrete outcome: queue `[7]`, elements `5` and `6` discarded. -/
theorem truncateCache_forgets_witness :
    ((removeElementsStep [7] w6).1.cacheQueue =
      (w6.cacheQueue ++ (removeChildren [7] w6).2.map Prod.fst).drop
        ((w6.cacheQueue ++ (removeChildren [7] w6).2.map Prod.fst).length - 1) ∧
    (removeElementsStep [7] w6).1.cacheQueue.length ≤ 1 ∧
    (removeElementsStep [7] w6).1.cache =
      ((w6.cacheQueue ++ (removeChildren [7] w6).2.map Prod.fst).take
        ((w6.cacheQueue ++ (removeChildren [7] w6).2.map Prod.fst).length - 1)).foldl
        mapDelete ((removeChildren [7] w6).2.foldl (fun c p => mapSet c p.1 p.2) w6.cache)) ∧
    (removeElementsStep [7] w6).1.cacheQueue = [7] ∧
    (removeElementsStep [7] w6).1.cache = [(7, e7)] ∧
    mapGet (removeElementsStep [7] w6).1.cache 5 = none ∧
    mapGet (removeElementsStep [7] w6).1.cache 6 = none :=
  ⟨truncateCache_forgets [7] w6 1 rfl (by decide), by decide, by decide,
    by decide, by decide⟩

theorem positionDummyElement_state (w : World) :
    ∃ d, (positionDummyElement w).1 = {w with dummyTop := d} := by
  rw [positionDummyElement]
  split
  · exact ⟨_, rfl⟩
  · exact ⟨w.dummyTop, rfl⟩

theorem stretchList_state (i : ℕ) (w : World) :
    ∃ d ch, (stretchList i w).1 = {w with dummyTop := d, currentScrollHeight := ch} := by
  rw [stretchList]
  split
  · exact ⟨w.dummyTop, w.currentScrollHeight, rfl⟩
  · dsimp only
    split
    · exact ⟨w.dummyTop, w.currentScrollHeight, rfl⟩
    · split
      · exact ⟨_, _, rfl⟩
      · exact ⟨w.dummyTop, w.currentScrollHeight, rfl⟩

theorem addChild_state (i : ℕ) (e : Elem) (ip : Bool) (w : World) :
    ∃ dom' cs t d ch, (addChild i e ip w).1 =
      {w with dom := dom', childSize := cs, treshold := t,
              dummyTop := d, currentScrollHeight := ch} := by
  rw [addChild]
  dsimp only
  split
  · -- discovery branch
    split
    · -- fixed size: positionDummyElement
      obtain ⟨d1, hd1⟩ := positionDummyElement_state
        {w with dom := if ip = true then mapSet w.dom (w.uniqueIdentifier, i) e
                       else w.dom ++ [((w.uniqueIdentifier, i), e)],
                childSize := some e.height,
                treshold := w.tresholdFactor * e.height}
      rw [hd1]
      obtain ⟨d2, ch2, hs⟩ := stretchList_state i
        {w with dom := if ip = true then mapSet w.dom (w.uniqueIdentifier, i) e
                       else w.dom ++ [((w.uniqueIdentifier, i), e)],
                childSize := some e.height,
                treshold := w.tresholdFactor * e.height,
                dummyTop := d1}
      rw [hs]
      exact ⟨_, _, _, _, _, rfl⟩
    · obtain ⟨d2, ch2, hs⟩ := stretchList_state i
        {w with dom := if ip = true then mapSet w.dom (w.uniqueIdentifier, i) e
                       else w.dom ++ [((w.uniqueIdentifier, i), e)],
                childSize := some e.height,
                treshold := w.tresholdFactor * e.height}
      rw [hs]
      exact ⟨_, _, _, _, _, rfl⟩
  · obtain ⟨d2, ch2, hs⟩ := stretchList_state i
      {w with dom := if ip = true then mapSet w.dom (w.uniqueIdentifier, i) e
                     else w.dom ++ [((w.uniqueIdentifier, i), e)]}
    rw [hs]
    exact ⟨_, _, _, _, _, rfl⟩

theorem drainCheck_state (w : World) :
    ∃ r fl rc, (drainCheck w).1 =
      {w with reloading := r, reloadAfterInvalidation := fl,
              reloadingChildrenToRemove := rc} := by
  rw [drainCheck]
  split
  · split
    · dsimp only
      split
      · split
        · exact ⟨_, _, _, rfl⟩
        · exact ⟨_, _, _, rfl⟩
      · split
        · exact ⟨_, _, _, rfl⟩
        · exact ⟨_, _, _, rfl⟩
    · exact ⟨w.reloading, w.reloadAfterInvalidation, w.reloadingChildrenToRemove, rfl⟩
  · exact ⟨w.reloading, w.reloadAfterInvalidation, w.reloadingChildrenToRemove, rfl⟩

theorem drainCheck_effs_shape (w : World) :
    ∀ x ∈ (drainCheck w).2, x.isProduce = false ∧ x.isScheduleRemove = false := by
  intro x hx
  rw [drainCheck] at hx
  split at hx
  · split at hx
    · dsimp only at hx
      split at hx
      · rw [List.mem_append] at hx
        rcases hx with hx | hx
        · split at hx
          · simp only [List.mem_singleton] at hx
            subst hx; exact ⟨rfl, rfl⟩
          · simp at hx
        · simp only [List.mem_singleton] at hx
          subst hx; exact ⟨rfl, rfl⟩
      · split at hx
        · simp only [List.mem_singleton] at hx
          subst hx; exact ⟨rfl, rfl⟩
        · simp at hx
    · simp at hx
  · simp at hx

theorem producedIndices_cons (e : Eff) (l : List Eff) :
    producedIndices (e :: l) = producedIndices [e] ++ producedIndices l := by
  cases e <;>
    first
      | rfl
      | (rename_i idx uid
         cases idx <;> first | rfl | simp [producedIndices])

theorem removalIndices_cons (e : Eff) (l : List Eff) :
    removalIndices (e :: l) = removalIndices [e] ++ removalIndices l := by
  cases e <;> first | rfl | simp [removalIndices]

theorem producedIndices_append (l1 l2 : List Eff) :
    producedIndices (l1 ++ l2) = producedIndices l1 ++ producedIndices l2 := by
  induction l1 with
  | nil => rfl
  | cons h t ih =>
    rw [List.cons_append, producedIndices_cons, ih, producedIndices_cons h t,
      List.append_assoc]

theorem removalIndices_append (l1 l2 : List Eff) :
    removalIndices (l1 ++ l2) = removalIndices l1 ++ removalIndices l2 := by
  induction l1 with
  | nil => rfl
  | cons h t ih =>
    rw [List.cons_append, removalIndices_cons, ih, removalIndices_cons h t,
      List.append_assoc]

theorem producedIndices_nil_of_shape (l : List Eff)
    (h : ∀ x ∈ l, x.isProduce = false) : producedIndices l = [] := by
  induction l with
  | nil => rfl
  | cons hd t ih =>
    rw [producedIndices_cons, ih (fun x hx => h x (List.mem_cons_of_mem hd hx)),
      List.append_nil]
    have hhd := h hd (List.mem_cons_self hd t)
    cases hd <;>
      first
        | rfl
        | simp [Eff.isProduce] at hhd

theorem removalIndices_nil_of_shape (l : List Eff)
    (h : ∀ x ∈ l, x.isScheduleRemove = false) : removalIndices l = [] := by
  induction l with
  | nil => rfl
  | cons hd t ih =>
    rw [removalIndices_cons, ih (fun x hx => h x (List.mem_cons_of_mem hd hx)),
      List.append_nil]
    have hhd := h hd (List.mem_cons_self hd t)
    cases hd <;>
      first
        | rfl
        | simp [Eff.isScheduleRemove] at hhd

theorem producedIndices_map_single (cs : List ℕ) (uid : ℕ) :
    producedIndices (cs.map (fun c => Eff.produce (.single c) uid)) = cs := by
  induction cs with
  | nil => rfl
  | cons h t ih =>
    rw [List.map_cons, producedIndices_cons, ih]
    rfl

/-- Every index the eviction loop collects for removal is neither in the
current visible set nor pending. -/
theorem evictLoop_not_visible_not_pending (limit : ℕ)
    (inView queries : Finset ℕ) :
    ∀ (q : List ℕ) (i : ℕ) (acc : List ℕ),
      (∀ x ∈ acc, x ∉ inView ∧ x ∉ queries) →
      ∀ x ∈ (evictLoop limit inView queries i q acc).2,
        x ∉ inView ∧ x ∉ queries := by
  intro q
  induction q with
  | nil =>
    intro i acc hacc x hx
    rw [evictLoop] at hx
    exact hacc x hx
  | cons c rest ih =>
    intro i acc hacc x hx
    rw [evictLoop] at hx
    split at hx
    · split at hx
      · exact ih _ _ hacc x hx
      · refine ih _ _ ?_ x hx
        intro y hy
        rw [List.mem_append, List.mem_singleton] at hy
        rcases hy with hy | hy
        · exact hacc y hy
        · subst hy
          rename_i hnot
          rw [not_or] at hnot
          exact hnot
    · exact hacc x hx

theorem addChild_effs_head (i : ℕ) (e : Elem) (ip : Bool) (w : World) :
    ∃ rest, (addChild i e ip w).2 = Eff.mount i e ip :: rest := by
  rw [addChild]
  dsimp only
  split
  · split <;> exact ⟨_, rfl⟩
  · exact ⟨_, rfl⟩

/-- The full effect of a validly resolved single element on the engine
state: the index moves Pending→Mounted, leaves the cache, a mount effect is
emitted, and no producer call or eviction task is issued. -/
theorem onGen_single_elem_spec (i : ℕ) (e : Elem) (uid : ℕ) (w : World)
    (hu : uid ≠ 0) (hcur : w.uniqueIdentifier = uid) :
    ∃ w' effs, onListItemGenerated (.single i) (.elemv e) uid w = .ok (w', effs) ∧
      w'.queries = w.queries.erase i ∧
      w'.domElements = insert i w.domElements ∧
      w'.cache = mapDelete w.cache i ∧
      w'.cacheQueue = w.cacheQueue.erase i ∧
      w'.queue = w.queue ∧
      w'.inView = w.inView ∧
      w'.size = w.size ∧
      w'.spinner = w.spinner ∧
      w'.uniqueIdentifier = w.uniqueIdentifier ∧
      (∃ rest, effs = Eff.mount i e false :: rest) ∧
      (∀ x ∈ effs, x.isProduce = false ∧ x.isScheduleRemove = false) := by
  rw [onGen_single_elem_eq i e uid w hu hcur]
  obtain ⟨dom', cs, t, d, ch, hA⟩ := addChild_state i e false (pendingResolve i w)
  obtain ⟨r, fl, rc, hD⟩ := drainCheck_state (addChild i e false (pendingResolve i w)).1
  refine ⟨_, _, rfl, ?_⟩
  rw [hD, hA]
  refine ⟨rfl, rfl, rfl, rfl, rfl, rfl, rfl, rfl, rfl, ?_, ?_⟩
  · obtain ⟨rest, hrest⟩ := addChild_effs_head i e false (pendingResolve i w)
    rw [hrest]
    exact ⟨_, rfl⟩
  · intro x hx
    rw [List.mem_append] at hx
    rcases hx with hx | hx
    · have hs := addChild_effs_shape _ _ _ _ x hx
      exact ⟨hs.1, hs.2.1⟩
    · exact drainCheck_effs_shape _ x hx

theorem prodStep_inv (uid : ℕ) (hu : uid ≠ 0) (w0 : World)
    (huid : w0.uniqueIdentifier = uid) (c : ℕ) (acc : PassAcc)
    (hinv : ProdInv w0 acc) :
    ∃ acc', prodStep uid acc c = .ok acc' ∧ ProdInv w0 acc' := by
  obtain ⟨hq, hnd, hnew, hid, hiv, hsz, heff⟩ := hinv
  rw [prodStep]
  split
  · exact ⟨acc, rfl, hq, hnd, hnew, hid, hiv, hsz, heff⟩
  · dsimp only
    have hspin : ∀ x ∈ (if acc.w.spinner = true then [Eff.spinnerPulse] else []),
        x.isProduce = false ∧ x.isScheduleRemove = false := by
      split
      · intro x hx
        rw [List.mem_singleton] at hx
        subst hx
        exact ⟨rfl, rfl⟩
      · intro x hx
        simp at hx
    split
    · -- already pending: nothing but chrome happens
      refine ⟨_, rfl, hq, hnd, hnew, hid, hiv, hsz, ?_⟩
      intro x hx
      rw [List.mem_append] at hx
      rcases hx with hx | hx
      · exact heff x hx
      · exact hspin x hx
    · rename_i hnotq
      have hcur : ({acc.w with queue := acc.w.queue ++ [c]} : World).uniqueIdentifier
          = uid := hid.trans huid
      cases hmg : mapGet ({acc.w with queue := acc.w.queue ++ [c]} : World).cache c with
      | some e =>
        dsimp only
        obtain ⟨w', effs', hok, hq', hdom', hcache', hcq', hqu', hiv', hsz', hsp',
          huid', hhead', hshape'⟩ :=
          onGen_single_elem_spec c e uid {acc.w with queue := acc.w.queue ++ [c]} hu hcur
        dsimp only at hok
        rw [hok]
        dsimp only
        refine ⟨_, rfl, ?_, hnd, hnew, ?_, ?_, ?_, ?_⟩
        · dsimp only
          rw [hq']
          dsimp only
          rw [Finset.erase_eq_of_not_mem hnotq]
          exact hq
        · dsimp only
          rw [huid']
          exact hid
        · dsimp only
          rw [hiv']
          exact hiv
        · dsimp only
          rw [hsz']
          exact hsz
        · intro x hx
          dsimp only at hx
          rw [List.append_assoc, List.mem_append] at hx
          rcases hx with hx | hx
          · exact heff x hx
          · rw [List.mem_append] at hx
            rcases hx with hx | hx
            · exact hspin x hx
            · exact hshape' x hx
      | none =>
        dsimp only
        refine ⟨_, rfl, ?_, ?_, ?_, hid, hiv, hsz, ?_⟩
        · dsimp only
          rw [hq]
          ext a
          simp only [Finset.mem_insert, Finset.mem_union, List.mem_toFinset,
            List.mem_append, List.mem_singleton]
          tauto
        · dsimp only
          have hcl : c ∉ acc.childrenToLoad := by
            intro hc
            apply hnotq
            rw [hq]
            exact Finset.mem_union_right _ (List.mem_toFinset.mpr hc)
          simp [List.nodup_append, hnd, hcl]
        · dsimp only
          intro i hi
          rw [List.mem_append, List.mem_singleton] at hi
          rcases hi with hi | hi
          · exact hnew i hi
          · subst hi
            intro hw0
            apply hnotq
            rw [hq]
            exact Finset.mem_union_left _ hw0
        · intro x hx
          dsimp only at hx
          rw [List.mem_append] at hx
          rcases hx with hx | hx
          · exact heff x hx
          · exact hspin x hx

theorem prodLoop_inv (uid : ℕ) (hu : uid ≠ 0) (w0 : World)
    (huid : w0.uniqueIdentifier = uid) :
    ∀ (l : List ℕ) (acc : PassAcc), ProdInv w0 acc →
      ∃ acc', l.foldlM (prodStep uid) acc = .ok acc' ∧ ProdInv w0 acc' := by
  intro l
  induction l with
  | nil => intro acc h; exact ⟨acc, rfl, h⟩
  | cons c t ih =>
    intro acc h
    obtain ⟨acc1, hstep, hinv1⟩ := prodStep_inv uid hu w0 huid c acc h
    obtain ⟨acc', hfold, hinv'⟩ := ih acc1 hinv1
    refine ⟨acc', ?_, hinv'⟩
    rw [List.foldlM_cons, hstep]
    exact hfold

theorem producedIndices_batch (cs : List ℕ) (uid : ℕ) :
    producedIndices [Eff.produce (.batch cs) uid] = cs := by
  simp [producedIndices]

theorem invalidateEvict_spec (w1 : World) :
    ∃ q2 ev, invalidateEvict w1 = ({w1 with queue := q2}, ev) ∧
      producedIndices ev = [] ∧
      (∀ x ∈ removalIndices ev, x ∉ w1.inView ∧ x ∉ w1.queries) := by
  rw [invalidateEvict]
  split
  · exact ⟨w1.queue, [], rfl, rfl, by simp [removalIndices]⟩
  · split
    · exact ⟨w1.queue, [], rfl, rfl, by simp [removalIndices]⟩
    · dsimp only
      refine ⟨_, _, rfl, ?_, ?_⟩
      · split
        · rfl
        · simp [producedIndices]
      · split
        · simp [removalIndices]
        · rename_i hne
          intro x hx
          rw [show removalIndices [Eff.scheduleRemove
              (evictLoop _ w1.inView w1.queries 0 w1.queue []).2] =
              (evictLoop _ w1.inView w1.queries 0 w1.queue []).2 ++ [] from rfl,
            List.append_nil] at hx
          exact evictLoop_not_visible_not_pending _ w1.inView w1.queries
            w1.queue 0 [] (by simp) x hx

theorem invalidateFinish_spec (uid : ℕ) (acc : PassAcc)
    (hshape : ∀ x ∈ acc.effs, x.isProduce = false ∧ x.isScheduleRemove = false) :
    ∃ d ch, (invalidateFinish uid acc).1 =
        {acc.w with dummyTop := d, currentScrollHeight := ch} ∧
      producedIndices (invalidateFinish uid acc).2 = acc.childrenToLoad ∧
      removalIndices (invalidateFinish uid acc).2 = [] := by
  have hstretch : ∃ d ch sEffs,
      (match acc.lastChild with
       | some lastChild =>
         if lastChild = 0 then (acc.w, ([] : List Eff))
         else stretchList lastChild acc.w
       | none => (acc.w, [])) = ({acc.w with dummyTop := d, currentScrollHeight := ch}, sEffs) ∧
      (∀ x ∈ sEffs, x.isProduce = false ∧ x.isScheduleRemove = false ∧
        x.isScheduleReload = false) := by
    cases acc.lastChild with
    | none => exact ⟨acc.w.dummyTop, acc.w.currentScrollHeight, [], rfl, by simp⟩
    | some lc =>
      dsimp only
      split
      · exact ⟨acc.w.dummyTop, acc.w.currentScrollHeight, [], rfl, by simp⟩
      · obtain ⟨d, ch, hs⟩ := stretchList_state lc acc.w
        refine ⟨d, ch, (stretchList lc acc.w).2, ?_, stretchList_effs_shape lc acc.w⟩
        rw [← hs]
  obtain ⟨d, ch, sEffs, hst, hsh⟩ := hstretch
  rw [invalidateFinish]
  dsimp only
  rw [hst]
  dsimp only
  split
  · rename_i hempty
    have htl : acc.childrenToLoad = [] := by
      simpa using hempty
    refine ⟨d, ch, rfl, ?_, ?_⟩
    · rw [producedIndices_append, htl,
        producedIndices_nil_of_shape _ (fun x hx => (hshape x hx).1),
        producedIndices_nil_of_shape _ (fun x hx => (hsh x hx).1)]
      rfl
    · rw [removalIndices_append,
        removalIndices_nil_of_shape _ (fun x hx => (hshape x hx).2),
        removalIndices_nil_of_shape _ (fun x hx => (hsh x hx).2.1)]
      rfl
  · dsimp only
    refine ⟨d, ch, rfl, ?_, ?_⟩
    · rw [producedIndices_append, producedIndices_append,
        producedIndices_nil_of_shape _ (fun x hx => (hshape x hx).1),
        producedIndices_nil_of_shape _ (fun x hx => (hsh x hx).1)]
      split
      · rw [producedIndices_batch]
        rfl
      · rw [producedIndices_map_single]
        rfl
    · rw [removalIndices_append, removalIndices_append,
        removalIndices_nil_of_shape _ (fun x hx => (hshape x hx).2),
        removalIndices_nil_of_shape _ (fun x hx => (hsh x hx).2.1)]
      split
      · rfl
      · rw [removalIndices_nil_of_shape _ (fun x hx => by
          rw [List.mem_map] at hx
          obtain ⟨cc, -, hcc⟩ := hx
          subst hcc
          rfl)]
        rfl

/-- The master specification of one `invalidate` pass: it never throws when
the epoch is non-zero; a guarded-out pass changes nothing; a pass that runs
issues deduplicated producer requests only for indices not already pending,
grows the pending set by exactly those indices, records the newly computed
visible set, and schedules for eviction only indices neither visible nor
pending. -/
theorem invalidate_spec (force : Bool) (env : Env) (w : World)
    (hu : w.uniqueIdentifier ≠ 0) :
    ∃ w' effs, invalidate force env w = .ok (w', effs) ∧
      (invGuard force env w = false → w' = w ∧ effs = []) ∧
      (invGuard force env w = true →
        (producedIndices effs).Nodup ∧
        (∀ i ∈ producedIndices effs, i ∉ w.queries) ∧
        w'.queries = w.queries ∪ (producedIndices effs).toFinset ∧
        w'.inView = (invElementsInView env w).toFinset ∧
        (∀ x ∈ removalIndices effs, x ∉ w'.inView ∧ x ∉ w.queries)) := by
  rw [invalidate]
  by_cases hg : invGuard force env w = false
  · rw [if_pos hg]
    exact ⟨w, [], rfl, fun _ => ⟨rfl, rfl⟩, fun ht => absurd ht (by simp [hg])⟩
  · rw [if_neg hg]
    rw [Bool.not_eq_false] at hg
    dsimp only
    obtain ⟨q2, ev, hev, hpev, hrem⟩ := invalidateEvict_spec
      {w with lastScrollTop := invScrollTop env w,
              inView := (invElementsInView env w).toFinset}
    rw [hev]
    dsimp only
    have hPinit : ProdInv
        ({w with lastScrollTop := invScrollTop env w,
                 inView := (invElementsInView env w).toFinset,
                 queue := q2} : World)
        ⟨{w with lastScrollTop := invScrollTop env w,
                 inView := (invElementsInView env w).toFinset,
                 queue := q2}, [], [], none⟩ :=
      ⟨by simp, List.nodup_nil, by simp, rfl, rfl, rfl, by simp⟩
    obtain ⟨acc', hfold, hinv'⟩ := prodLoop_inv w.uniqueIdentifier hu
      {w with lastScrollTop := invScrollTop env w,
              inView := (invElementsInView env w).toFinset,
              queue := q2} rfl (invDifference env w) _ hPinit
    rw [hfold]
    dsimp only
    obtain ⟨hq', hnd', hnew', hid', hiv', hsz', hsh'⟩ := hinv'
    obtain ⟨d, ch, hfin1, hfinP, hfinR⟩ := invalidateFinish_spec
      w.uniqueIdentifier acc' hsh'
    refine ⟨_, _, rfl, fun hf => absurd hg (by simp [hf]), fun _ => ?_⟩
    rw [producedIndices_append, hpev, hfinP, List.nil_append]
    refine ⟨hnd', hnew', ?_, ?_, ?_⟩
    · rw [hfin1]
      dsimp only
      rw [hq']
    · rw [hfin1]
      dsimp only
      rw [hiv']
    · rw [removalIndices_append, hfinR, List.append_nil]
      intro x hx
      have hx' := hrem x hx
      refine ⟨?_, hx'.2⟩
      rw [hfin1]
      dsimp only
      rw [hiv']
      exact hx'.1

theorem invScrollTop_w4 : invScrollTop env4 w4 = 0 := by decide

theorem invalidate_w4_view : invElementsInView env4 w4 = [0, 1] := by
  norm_num [invElementsInView, invScrollTop, getChildrenInView, jsToUint32,
    ratTrunc, jsCeil, numRange, env4, w4, baseWorld]
  decide

theorem invalidate_w4_diff : invDifference env4 w4 = [0, 1] := by
  rw [invDifference, invalidate_w4_view]
  decide

theorem invalidate_w4_run :
    invalidate true env4 w4 =
      .ok (w4', [Eff.produce (.single 0) 1, Eff.produce (.single 1) 1]) := by
  rw [invalidate, if_neg (by decide)]
  dsimp only
  rw [invalidate_w4_view, invalidate_w4_diff, invScrollTop_w4]
  decide

/-- C4: an `invalidate` pass requests production only for indices that are
not already Pending, never twice for the same index, and the pending set
afterwards is exactly the old one plus the newly requested indices — so at
most one production request is ever outstanding per index. -/
theorem invalidate_at_most_one_pending (force : Bool) (env : Env)
    (w w' : World) (effs : List Eff) (hu : w.uniqueIdentifier ≠ 0)
    (h : invalidate force env w = .ok (w', effs)) :
    (producedIndices effs).Nodup ∧
    (∀ i ∈ producedIndices effs, i ∉ w.queries) ∧
    w'.queries = w.queries ∪ (producedIndices effs).toFinset := by
  obtain ⟨w2, effs2, heq, hfalse, htrue⟩ := invalidate_spec force env w hu
  rw [heq, Except.ok.injEq, Prod.mk.injEq] at h
  obtain ⟨hw, heff⟩ := h
  subst hw heff
  by_cases hg : invGuard force env w = true
  · obtain ⟨hnd, hnew, hq, -, -⟩ := htrue hg
    exact ⟨hnd, hnew, hq⟩
  · rw [Bool.not_eq_true] at hg
    obtain ⟨hw2, heff2⟩ := hfalse hg
    subst hw2 heff2
    exact ⟨List.nodup_nil, by simp [producedIndices], by simp [producedIndices]⟩

theorem invalidate_at_most_one_pending_witness :
    (producedIndices [Eff.produce (.single 0) 1, Eff.produce (.single 1) 1]).Nodup ∧
    (∀ i ∈ producedIndices [Eff.produce (.single 0) 1, Eff.produce (.single 1) 1],
      i ∉ w4.queries) ∧
    w4'.queries =
      w4.queries ∪
        (producedIndices [Eff.produce (.single 0) 1,
          Eff.produce (.single 1) 1]).toFinset :=
  invalidate_at_most_one_pending true env4 w4 w4' _ (by decide) invalidate_w4_run

theorem invScrollTop_w3 : invScrollTop env3 w3 = 20 := by decide

theorem invalidate_w3_view : invElementsInView env3 w3 = [2, 3] := by
  have hJ : jsToUint32 (max ((20:ℚ) - 0) 0 / 10) = 2 := by
    norm_num [jsToUint32, ratTrunc, max_def]
    decide
  rw [invElementsInView, invScrollTop_w3]
  show getChildrenInView 20 20 0 (some 10) = [2, 3]
  rw [getChildrenInView_known _ _ _ _ (by norm_num), hJ]
  norm_num [jsCeil, numRange]
  decide

theorem invalidate_w3_diff : invDifference env3 w3 = [] := by
  rw [invDifference, invalidate_w3_view]
  decide

theorem invalidate_w3_run :
    invalidate true env3 w3 = .ok (w3', [Eff.scheduleRemove [0]]) := by
  rw [invalidate, if_neg (by decide)]
  dsimp only
  rw [invalidate_w3_view, invalidate_w3_diff, invScrollTop_w3]
  decide

theorem removeElements_w3 :
    removeElementsStep [0] w3' =
      ({w3' with cacheQueue := [0], cache := [(0, e0)],
                 domElements := {1, 2, 3},
                 dom := [((1, 1), e1), ((1, 2), e2), ((1, 3), e3)]}, []) := by
  decide

/-- C3: an `invalidate` pass never schedules for demotion an index that is
in the freshly computed visible set or that is Pending; in the concrete
scenario (element limit 3, mounted queue [0,1,2,3] in insertion order,
visible set {2,3}) exactly index 0 is scheduled for removal, the mounted
queue becomes [1,2,3], and the deferred removal demotes index 0 from
Mounted to Cached. -/
theorem evict_never_removes_visible (force : Bool) (env : Env)
    (w w' : World) (effs : List Eff) (hu : w.uniqueIdentifier ≠ 0)
    (h : invalidate force env w = .ok (w', effs)) :
    (∀ x ∈ removalIndices effs, x ∉ w'.inView ∧ x ∉ w.queries) ∧
    (invalidate true env3 w3 = .ok (w3', [Eff.scheduleRemove [0]]) ∧
     w3'.queue = [1, 2, 3] ∧
     removeElementsStep [0] w3' =
       ({w3' with cacheQueue := [0], cache := [(0, e0)],
                  domElements := {1, 2, 3},
                  dom := [((1, 1), e1), ((1, 2), e2), ((1, 3), e3)]}, [])) := by
  refine ⟨?_, invalidate_w3_run, rfl, removeElements_w3⟩
  obtain ⟨w2, effs2, heq, hfalse, htrue⟩ := invalidate_spec force env w hu
  rw [heq, Except.ok.injEq, Prod.mk.injEq] at h
  obtain ⟨hw, heff⟩ := h
  subst hw heff
  by_cases hg : invGuard force env w = true
  · exact (htrue hg).2.2.2.2
  · rw [Bool.not_eq_true] at hg
    obtain ⟨hw2, heff2⟩ := hfalse hg
    subst hw2 heff2
    simp [removalIndices]

theorem evict_never_removes_visible_witness :
    ((∀ x ∈ removalIndices [Eff.scheduleRemove [0]],
        x ∉ w3'.inView ∧ x ∉ w3.queries) ∧
     (invalidate true env3 w3 = .ok (w3', [Eff.scheduleRemove [0]]) ∧
      w3'.queue = [1, 2, 3] ∧
      removeElementsStep [0] w3' =
        ({w3' with cacheQueue := [0], cache := [(0, e0)],
                   domElements := {1, 2, 3},
                   dom := [((1, 1), e1), ((1, 2), e2), ((1, 3), e3)]}, []))) :=
  evict_never_removes_visible true env3 w3 w3' [Eff.scheduleRemove [0]]
    (by decide) invalidate_w3_run

theorem removeChildren_state (ids : List ℕ) (w : World) :
    ∃ d, (removeChildren ids w).1 = {w with dom := d} := by
  rw [removeChildren]
  suffices hgen : ∀ (acc : World × List (ℕ × Elem)), (∃ d0, acc.1 = {w with dom := d0}) →
      ∃ d, (ids.foldl (fun acc i =>
        match mapGet acc.1.dom (acc.1.uniqueIdentifier, i) with
        | none => acc
        | some e => ({acc.1 with dom := mapDelete acc.1.dom (acc.1.uniqueIdentifier, i)},
            acc.2 ++ [(i, e)])) acc).1 = {w with dom := d} by
    exact hgen (w, []) ⟨w.dom, rfl⟩
  induction ids with
  | nil => intro acc h; exact h
  | cons i rest ih =>
    intro acc h
    obtain ⟨d0, hd0⟩ := h
    rw [List.foldl_cons]
    refine ih _ ?_
    beta_reduce
    cases hmg : mapGet acc.1.dom (acc.1.uniqueIdentifier, i) with
    | none =>
      exact ⟨d0, hd0⟩
    | some e =>
      refine ⟨mapDelete acc.1.dom (acc.1.uniqueIdentifier, i), ?_⟩
      dsimp only
      rw [hd0]

theorem removePrune_state (l : List ℕ) (w : World) :
    ∃ de c q cq, (l.foldl (fun acc i =>
      {acc with domElements := acc.domElements.erase i,
                cache := mapDelete acc.cache i,
                queue := acc.queue.erase i,
                cacheQueue := acc.cacheQueue.erase i}) w) =
      {w with domElements := de, cache := c, queue := q, cacheQueue := cq} := by
  induction l generalizing w with
  | nil => exact ⟨w.domElements, w.cache, w.queue, w.cacheQueue, rfl⟩
  | cons i rest ih =>
    rw [List.foldl_cons]
    obtain ⟨de, c, q, cq, h⟩ := ih ({w with domElements := w.domElements.erase i, cache := mapDelete w.cache i, queue := w.queue.erase i, cacheQueue := w.cacheQueue.erase i})
    exact ⟨de, c, q, cq, by rw [h]⟩

set_option maxHeartbeats 2000000 in
theorem updateSizeCore_uid (q : ℚ) (env : Env) (w : World) :
    (updateSizeCore q env w).1.uniqueIdentifier = w.uniqueIdentifier := by
  rw [updateSizeCore]
  dsimp only
  obtain ⟨d, hp⟩ := positionDummyElement_state {w with size := some q}
  rw [hp]
  obtain ⟨dm, hr⟩ := removeChildren_state _ _
  rw [hr]
  obtain ⟨de, c, qq, cq, h2⟩ := removePrune_state _ _
  rw [h2]
  rw [apply_ite (fun p : World × List Eff => p.1.uniqueIdentifier)]
  dsimp only
  rw [ite_self]
  rw [apply_ite (fun ww : World => ww.uniqueIdentifier)]
  dsimp only
  rw [ite_self]
  rw [apply_ite (fun p : World × List Eff => p.1.uniqueIdentifier)]
  dsimp only
  rw [ite_self]

theorem updateSize_ok (q : ℚ) (env : Env) (w : World) (hq : ¬ q < 0)
    (hu : w.uniqueIdentifier ≠ 0) :
    ∃ p, updateSize (some q) env w = .ok p := by
  rw [updateSize.eq_def]
  dsimp only
  rw [if_neg hq]
  split
  · exact ⟨_, rfl⟩
  · split
    · obtain ⟨w', effs, heq, -, -⟩ := invalidate_spec false env
        (updateSizeCore q env w).1 (by rw [updateSizeCore_uid]; exact hu)
      rw [heq]
      exact ⟨_, rfl⟩
    · exact ⟨_, rfl⟩

/-- C9 counterexample: `updateSize(0)` is accepted, not rejected — the
source guard `typeof size !== "number" || size < 0` lets a zero size
through (the zero case is handled deliberately further down). -/
theorem updateSize_zero_accepted :
    ∃ p, updateSize (some 0) env9 w9 = .ok p :=
  updateSize_ok 0 env9 w9 (by decide) (by decide)

/-- C9 (amended): `updateSize` raises exactly for a missing / non-numeric
argument or a negative size; zero and every non-negative size are
accepted. -/
theorem updateSize_error_iff (sizeArg : Option ℚ) (env : Env) (w : World)
    (hu : w.uniqueIdentifier ≠ 0) :
    (∃ s, updateSize sizeArg env w = .error s) ↔
      sizeArg = none ∨ ∃ q, sizeArg = some q ∧ q < 0 := by
  constructor
  · rintro ⟨s, hs⟩
    cases sizeArg with
    | none => exact Or.inl rfl
    | some q =>
      refine Or.inr ⟨q, rfl, ?_⟩
      by_contra hq
      obtain ⟨p, hp⟩ := updateSize_ok q env w hq hu
      rw [hp] at hs
      exact Except.noConfusion hs
  · rintro (h | ⟨q, hq, hneg⟩)
    · subst h
      exact ⟨"Invalid size", rfl⟩
    · subst hq
      refine ⟨"Invalid size", ?_⟩
      rw [updateSize.eq_def]
      dsimp only
      rw [if_pos hneg]

theorem updateSize_error_iff_witness :
    ((∃ s, updateSize (some (-3)) env9 w9 = .error s) ↔
      some (-3 : ℚ) = none ∨ ∃ q, some (-3 : ℚ) = some q ∧ q < 0) :=
  updateSize_error_iff (some (-3)) env9 w9 (by decide)

theorem mapGet_mapDelete_self {α : Type} (m : List (ℕ × α)) (k : ℕ) :
    mapGet (mapDelete m k) k = none := by
  induction m with
  | nil => rfl
  | cons p t ih =>
    rw [mapDelete, List.filter_cons]
    by_cases hpk : p.1 = k
    · rw [if_neg (by simp [hpk])]
      exact ih
    · rw [if_pos (by simp [hpk])]
      rw [mapGet, List.find?_cons_of_neg _ (by simp [hpk])]
      exact ih

theorem mapGet_mapDelete_ne {α : Type} (m : List (ℕ × α)) (j k : ℕ)
    (h : j ≠ k) :
    mapGet (mapDelete m j) k = mapGet m k := by
  induction m with
  | nil => rfl
  | cons p t ih =>
    rw [mapDelete, List.filter_cons]
    by_cases hpj : p.1 = j
    · rw [if_neg (by simp [hpj])]
      rw [show mapGet (p :: t) k = mapGet t k from ?_]
      · exact ih
      · rw [mapGet, List.find?_cons_of_neg _ (by simp [hpj]; omega), mapGet]
    · rw [if_pos (by simp [hpj])]
      by_cases hpk : p.1 = k
      · rw [mapGet, mapGet, List.find?_cons_of_pos _ (by simp [hpk]),
          List.find?_cons_of_pos _ (by simp [hpk])]
      · rw [mapGet, mapGet, List.find?_cons_of_neg _ (by simp [hpk]),
          List.find?_cons_of_neg _ (by simp [hpk])]
        exact ih

theorem invElementsInView_nodup (env : Env) (w : World) :
    (invElementsInView env w).Nodup := by
  rw [invElementsInView]
  cases hcs : w.childSize with
  | none => simp [getChildrenInView]
  | some c =>
    rw [getChildrenInView]
    split
    · simp
    · rw [numRange]
      exact List.nodup_range' _ _

theorem invDifference_nodup (env : Env) (w : World) :
    (invDifference env w).Nodup := by
  rw [invDifference]
  exact ((invElementsInView_nodup env w).filter _).filter _

theorem sizeBlocks_of_mem_diff (env : Env) (w : World) (k : ℕ)
    (hk : k ∈ invDifference env w) :
    sizeBlocks w.size k = false := by
  rw [invDifference, List.mem_filter] at hk
  obtain ⟨-, hpred⟩ := hk
  rw [sizeBlocks.eq_def]
  cases hsz : w.size with
  | none => rfl
  | some q =>
    rw [hsz] at hpred
    dsimp only at hpred
    rw [decide_eq_true_iff] at hpred
    rw [decide_eq_false_iff_not]
    exact not_le.mpr hpred

theorem invalidateFinish_effs_prefix (uid : ℕ) (acc : PassAcc) :
    ∃ rest, (invalidateFinish uid acc).2 = acc.effs ++ rest := by
  rw [invalidateFinish]
  dsimp only
  split
  · exact ⟨_, rfl⟩
  · exact ⟨_, rfl⟩

theorem prodStep_cacheA (uid : ℕ) (hu : uid ≠ 0) (s0 : Option ℚ)
    (k j : ℕ) (e : Elem) (hjk : j ≠ k) (acc : PassAcc)
    (h : CacheTrack uid s0 k e acc) :
    ∃ acc', prodStep uid acc j = .ok acc' ∧ CacheTrack uid s0 k e acc' ∧
      ∃ ext, acc'.effs = acc.effs ++ ext := by
  obtain ⟨hid, hsz, hc, hnq, hncl⟩ := h
  rw [prodStep]
  split
  · exact ⟨acc, rfl, ⟨hid, hsz, hc, hnq, hncl⟩, [], (List.append_nil _).symm⟩
  · dsimp only
    split
    · exact ⟨_, rfl, ⟨hid, hsz, hc, hnq, hncl⟩, _, rfl⟩
    · cases hmg : mapGet ({acc.w with queue := acc.w.queue ++ [j]} : World).cache j with
      | some e2 =>
        dsimp only
        obtain ⟨w', effs', hok, hq', hdom', hcache', hcq', hqu', hiv', hsz', hsp',
          huid', hhead', hshape'⟩ :=
          onGen_single_elem_spec j e2 uid {acc.w with queue := acc.w.queue ++ [j]} hu hid
        dsimp only at hok
        rw [hok]
        dsimp only
        refine ⟨_, rfl, ⟨?_, ?_, ?_, ?_, hncl⟩, _, List.append_assoc _ _ _⟩
        · dsimp only
          rw [huid']
          exact hid
        · dsimp only
          rw [hsz']
          exact hsz
        · dsimp only
          rw [hcache']
          exact (mapGet_mapDelete_ne _ j k hjk).trans hc
        · dsimp only
          rw [hq']
          intro hmem
          exact hnq (Finset.mem_of_mem_erase hmem)
      | none =>
        dsimp only
        refine ⟨_, rfl, ⟨hid, hsz, hc, ?_, ?_⟩, _, rfl⟩
        · dsimp only
          rw [Finset.mem_insert, not_or]
          exact ⟨fun h1 => hjk h1.symm, hnq⟩
        · dsimp only
          rw [List.mem_append, List.mem_singleton, not_or]
          exact ⟨hncl, fun h1 => hjk h1.symm⟩

theorem prodStep_cacheK (uid : ℕ) (hu : uid ≠ 0) (s0 : Option ℚ)
    (k : ℕ) (e : Elem) (acc : PassAcc) (h : CacheTrack uid s0 k e acc)
    (hsb : sizeBlocks s0 k = false) :
    ∃ acc', prodStep uid acc k = .ok acc' ∧ MountedTrack uid k acc' ∧
      Eff.mount k e false ∈ acc'.effs ∧
      ∃ ext, acc'.effs = acc.effs ++ ext := by
  obtain ⟨hid, hsz, hc, hnq, hncl⟩ := h
  rw [prodStep]
  rw [if_neg (by rw [hsz, hsb]; simp)]
  dsimp only
  rw [if_neg hnq]
  have hc' : mapGet ({acc.w with queue := acc.w.queue ++ [k]} : World).cache k
      = some e := hc
  rw [hc']
  dsimp only
  obtain ⟨w', effs', hok, hq', hdom', hcache', hcq', hqu', hiv', hsz', hsp',
    huid', hhead', hshape'⟩ :=
    onGen_single_elem_spec k e uid {acc.w with queue := acc.w.queue ++ [k]} hu hid
  dsimp only at hok
  rw [hok]
  dsimp only
  obtain ⟨rest, hrest⟩ := hhead'
  refine ⟨_, rfl, ⟨?_, ?_, ?_, ?_, hncl⟩, ?_, _, List.append_assoc _ _ _⟩
  · dsimp only
    rw [huid']
    exact hid
  · dsimp only
    rw [hdom']
    exact Finset.mem_insert_self k _
  · dsimp only
    rw [hcache']
    exact mapGet_mapDelete_self _ k
  · dsimp only
    rw [hq']
    exact Finset.not_mem_erase k _
  · dsimp only
    rw [hrest]
    rw [List.mem_append]
    exact Or.inr (List.mem_cons_self _ _)

theorem prodStep_cacheB (uid : ℕ) (hu : uid ≠ 0) (k j : ℕ) (hjk : j ≠ k)
    (acc : PassAcc) (h : MountedTrack uid k acc) :
    ∃ acc', prodStep uid acc j = .ok acc' ∧ MountedTrack uid k acc' ∧
      ∃ ext, acc'.effs = acc.effs ++ ext := by
  obtain ⟨hid, hdom, hc, hnq, hncl⟩ := h
  rw [prodStep]
  split
  · exact ⟨acc, rfl, ⟨hid, hdom, hc, hnq, hncl⟩, [], (List.append_nil _).symm⟩
  · dsimp only
    split
    · exact ⟨_, rfl, ⟨hid, hdom, hc, hnq, hncl⟩, _, rfl⟩
    · cases hmg : mapGet ({acc.w with queue := acc.w.queue ++ [j]} : World).cache j with
      | some e2 =>
        dsimp only
        obtain ⟨w', effs', hok, hq', hdom', hcache', hcq', hqu', hiv', hsz', hsp',
          huid', hhead', hshape'⟩ :=
          onGen_single_elem_spec j e2 uid {acc.w with queue := acc.w.queue ++ [j]} hu hid
        dsimp only at hok
        rw [hok]
        dsimp only
        refine ⟨_, rfl, ⟨?_, ?_, ?_, ?_, hncl⟩, _, List.append_assoc _ _ _⟩
        · dsimp only
          rw [huid']
          exact hid
        · dsimp only
          rw [hdom']
          exact Finset.mem_insert_of_mem hdom
        · dsimp only
          rw [hcache']
          exact (mapGet_mapDelete_ne _ j k hjk).trans hc
        · dsimp only
          rw [hq']
          intro hmem
          exact hnq (Finset.mem_of_mem_erase hmem)
      | none =>
        dsimp only
        refine ⟨_, rfl, ⟨hid, hdom, hc, ?_, ?_⟩, _, rfl⟩
        · dsimp only
          rw [Finset.mem_insert, not_or]
          exact ⟨fun h1 => hjk h1.symm, hnq⟩
        · dsimp only
          rw [List.mem_append, List.mem_singleton, not_or]
          exact ⟨hncl, fun h1 => hjk h1.symm⟩

theorem prodLoop_cacheA (uid : ℕ) (hu : uid ≠ 0) (s0 : Option ℚ)
    (k : ℕ) (e : Elem) :
    ∀ (l : List ℕ), k ∉ l → ∀ acc, CacheTrack uid s0 k e acc →
      ∃ acc', l.foldlM (prodStep uid) acc = .ok acc' ∧
        CacheTrack uid s0 k e acc' ∧
        ∃ ext, acc'.effs = acc.effs ++ ext := by
  intro l
  induction l with
  | nil =>
    intro _ acc h
    exact ⟨acc, rfl, h, [], (List.append_nil _).symm⟩
  | cons c t ih =>
    intro hkl acc h
    rw [List.mem_cons, not_or] at hkl
    obtain ⟨hck, hkt⟩ := hkl
    obtain ⟨acc1, hstep, h1, e1, he1⟩ :=
      prodStep_cacheA uid hu s0 k c e (fun h1 => hck h1.symm) acc h
    obtain ⟨acc', hfold, h', e2, he2⟩ := ih hkt acc1 h1
    refine ⟨acc', ?_, h', e1 ++ e2, ?_⟩
    · rw [List.foldlM_cons, hstep]
      exact hfold
    · rw [he2, he1, List.append_assoc]

theorem prodLoop_cacheB (uid : ℕ) (hu : uid ≠ 0) (k : ℕ) :
    ∀ (l : List ℕ), k ∉ l → ∀ acc, MountedTrack uid k acc →
      ∃ acc', l.foldlM (prodStep uid) acc = .ok acc' ∧
        MountedTrack uid k acc' ∧
        ∃ ext, acc'.effs = acc.effs ++ ext := by
  intro l
  induction l with
  | nil =>
    intro _ acc h
    exact ⟨acc, rfl, h, [], (List.append_nil _).symm⟩
  | cons c t ih =>
    intro hkl acc h
    rw [List.mem_cons, not_or] at hkl
    obtain ⟨hck, hkt⟩ := hkl
    obtain ⟨acc1, hstep, h1, e1, he1⟩ :=
      prodStep_cacheB uid hu k c (fun h1 => hck h1.symm) acc h
    obtain ⟨acc', hfold, h', e2, he2⟩ := ih hkt acc1 h1
    refine ⟨acc', ?_, h', e1 ++ e2, ?_⟩
    · rw [List.foldlM_cons, hstep]
      exact hfold
    · rw [he2, he1, List.append_assoc]

/-- C7: an index that is Cached and visible again on a pass that runs is
promoted directly from Cached to Mounted: the pass mounts it from the cache
synchronously, removes it from the cache, and issues no producer request
for it. -/
theorem cache_promotes_without_reproduction (force : Bool) (env : Env)
    (w : World) (k : ℕ) (e : Elem)
    (hu : w.uniqueIdentifier ≠ 0)
    (hc : mapGet w.cache k = some e)
    (hk : k ∈ invDifference env w)
    (hnq : k ∉ w.queries)
    (hg : invGuard force env w = true) :
    ∃ w' effs, invalidate force env w = .ok (w', effs) ∧
      k ∉ producedIndices effs ∧
      k ∈ w'.domElements ∧
      mapGet w'.cache k = none ∧
      Eff.mount k e false ∈ effs := by
  obtain ⟨l1, l2, hsplit⟩ := List.append_of_mem hk
  have hnd : (invDifference env w).Nodup := invDifference_nodup env w
  rw [hsplit] at hnd
  have hkl1 : k ∉ l1 := by
    intro hmem
    rw [List.nodup_append] at hnd
    exact hnd.2.2 hmem (List.mem_cons_self k l2)
  have hkl2 : k ∉ l2 := by
    rw [List.nodup_append, List.nodup_cons] at hnd
    exact hnd.2.1.1
  rw [invalidate, if_neg (by rw [hg]; simp)]
  dsimp only
  obtain ⟨q2, ev, hev, hpev, hrem⟩ := invalidateEvict_spec
    {w with lastScrollTop := invScrollTop env w,
            inView := (invElementsInView env w).toFinset}
  rw [hev]
  dsimp only
  obtain ⟨acc1, hfoldA, htrA, e1, he1⟩ := prodLoop_cacheA w.uniqueIdentifier hu
    w.size k e l1 hkl1
    ⟨({w with lastScrollTop := invScrollTop env w, inView := (invElementsInView env w).toFinset, queue := q2} : World), [], [], none⟩
    ⟨rfl, rfl, hc, hnq, List.not_mem_nil k⟩
  obtain ⟨accK, hstepK, htrK, hmountK, e2, he2⟩ :=
    prodStep_cacheK w.uniqueIdentifier hu w.size k e acc1 htrA
      (sizeBlocks_of_mem_diff env w k hk)
  obtain ⟨acc2, hfoldB, htrB, e3, he3⟩ := prodLoop_cacheB w.uniqueIdentifier hu
    k l2 hkl2 accK htrK
  have hfold : (l1 ++ k :: l2).foldlM (prodStep w.uniqueIdentifier)
      (⟨({w with lastScrollTop := invScrollTop env w, inView := (invElementsInView env w).toFinset, queue := q2} : World), [], [], none⟩ : PassAcc) = .ok acc2 := by
    rw [List.foldlM_append, hfoldA]
    show (k :: l2).foldlM (prodStep w.uniqueIdentifier) acc1 = .ok acc2
    rw [List.foldlM_cons, hstepK]
    exact hfoldB
  have hPinit : ProdInv
      ({w with lastScrollTop := invScrollTop env w, inView := (invElementsInView env w).toFinset, queue := q2} : World)
      ⟨({w with lastScrollTop := invScrollTop env w, inView := (invElementsInView env w).toFinset, queue := q2} : World), [], [], none⟩ :=
    ⟨by simp, List.nodup_nil, by simp, rfl, rfl, rfl, by simp⟩
  obtain ⟨acc2', hfold', hinv'⟩ := prodLoop_inv w.uniqueIdentifier hu
    ({w with lastScrollTop := invScrollTop env w, inView := (invElementsInView env w).toFinset, queue := q2} : World) rfl (l1 ++ k :: l2) _ hPinit
  rw [hfold, Except.ok.injEq] at hfold'
  subst hfold'
  rw [hsplit, hfold]
  dsimp only
  obtain ⟨d, ch, hfin1, hfinP, hfinR⟩ := invalidateFinish_spec
    w.uniqueIdentifier acc2 hinv'.2.2.2.2.2.2
  obtain ⟨restF, hrestF⟩ := invalidateFinish_effs_prefix w.uniqueIdentifier acc2
  refine ⟨_, _, rfl, ?_, ?_, ?_, ?_⟩
  · rw [producedIndices_append, hpev, hfinP, List.nil_append]
    exact htrB.2.2.2.2
  · rw [hfin1]
    dsimp only
    exact htrB.2.1
  · rw [hfin1]
    dsimp only
    exact htrB.2.2.1
  · rw [hrestF, he3, List.mem_append]
    refine Or.inr ?_
    rw [List.mem_append]
    refine Or.inl ?_
    rw [List.mem_append]
    exact Or.inl hmountK

theorem invalidate_w7_diff : invDifference env7 w7 = [0, 1] := by
  have hview : invElementsInView env7 w7 = [0, 1] := by
    norm_num [invElementsInView, invScrollTop, getChildrenInView, jsToUint32,
      ratTrunc, jsCeil, numRange, env7, w7, baseWorld]
    decide
  rw [invDifference, hview]
  decide

theorem cache_promotes_without_reproduction_witness :
    ∃ w' effs, invalidate true env7 w7 = .ok (w', effs) ∧
      0 ∉ producedIndices effs ∧
      0 ∈ w'.domElements ∧
      mapGet w'.cache 0 = none ∧
      Eff.mount 0 e7c false ∈ effs :=
  cache_promotes_without_reproduction true env7 w7 0 e7c (by decide)
    (by decide) (by rw [invalidate_w7_diff]; decide) (by decide) (by decide)
